import Mathlib

/-!
Shallow embedding of the resumable chunked transcode pipeline of
`convertinchunks.py`: a filesystem model, path helpers, the splitter
(`split_video`), the crash-safe resume check, the chunk-encode loop with its
cancellation handling, the merger (`merge_videos`), the verify/cleanup stage,
and the per-unit coordinator (`convert`'s loop body), together with theorems
settling the specification claims about them.

The mutable global `interrupted` flag of the source is modelled by recording,
in an environment, the boolean value returned by each of the code's reads of
the flag; external process invocations (ffmpeg / ffprobe) are modelled by
environment-supplied outcomes.
-/

/-- Character constant for the path separator. -/
def slashChar : Char := Char.ofNat 47

/-- Character constant for the extension dot. -/
def dotChar : Char := Char.ofNat 46

/-- Character constant for the single-quote character escaped by the merger. -/
def qChar : Char := Char.ofNat 39

/-- Character constant for the backslash used in the merger's escape. -/
def bslashChar : Char := Char.ofNat 92

/-- Bool test: the first char list is a prefix of the second. -/
def lpre : List Char → List Char → Bool
  | [], _ => true
  | _ :: _, [] => false
  | a :: as, b :: bs => a == b && lpre as bs

/-- Split a char list at every occurrence of `sep` (like `str.split(sep)`). -/
def splitChars (sep : Char) : List Char → List (List Char)
  | [] => [[]]
  | c :: cs =>
    if c == sep then [] :: splitChars sep cs
    else
      match splitChars sep cs with
      | [] => [[c]]
      | g :: gs => (c :: g) :: gs

/-- Join char-list groups with a separator (inverse of `splitChars`). -/
def joinWith (sep : Char) : List (List Char) → List Char
  | [] => []
  | [g] => g
  | g :: gs => g ++ sep :: joinWith sep gs

/-- Model of `os.path.basename`: the component after the last slash. -/
def baseName (s : String) : String :=
  String.mk ((splitChars slashChar s.data).getLastD [])

/-- Model of `os.path.dirname`: everything before the last slash. -/
def dirName (s : String) : String :=
  String.mk (joinWith slashChar (splitChars slashChar s.data).dropLast)

/-- Model of `os.path.splitext(...)[0]`: drop the extension after the last dot. -/
def dropExt (s : String) : String :=
  let gs := splitChars dotChar s.data
  if gs.length ≤ 1 then s else String.mk (joinWith dotChar gs.dropLast)

/-- Bool test: `s` starts with `p`. -/
def strStarts (s p : String) : Bool := lpre p.data s.data

/-- Bool test: `s` ends with `p`. -/
def strEnds (s p : String) : Bool := lpre p.data.reverse s.data.reverse

/-- Lexicographic order on char lists by code point, as `sorted()` uses. -/
def lexLe : List Char → List Char → Bool
  | [], _ => true
  | _ :: _, [] => false
  | a :: as, b :: bs =>
    if a.toNat < b.toNat then true
    else if b.toNat < a.toNat then false
    else lexLe as bs

/-- Lexicographic order on strings. -/
def strLe (a b : String) : Bool := lexLe a.data b.data

/-- Insert a string into a sorted list of strings. -/
def insertSorted (x : String) : List String → List String
  | [] => [x]
  | y :: ys => if strLe x y then x :: y :: ys else y :: insertSorted x ys

/-- Model of Python's `sorted` on lists of strings (insertion sort). -/
def sortStrings : List String → List String
  | [] => []
  | x :: xs => insertSorted x (sortStrings xs)

/-- Filesystem model: an association list from absolute path to file size
in bytes.  Directories are implicit (a directory is the set of paths having
it as a prefix). -/
abbrev FS := List (String × Nat)

/-- Size of the file at `p`, if present (model of `os.path.getsize`). -/
def FS.size? (fs : FS) (p : String) : Option Nat :=
  (fs.find? (fun e => e.1 == p)).map Prod.snd

/-- Model of `os.path.exists` for files. -/
def FS.existsFile (fs : FS) (p : String) : Bool := (FS.size? fs p).isSome

/-- Model of `os.remove`. -/
def FS.remove (fs : FS) (p : String) : FS := fs.filter (fun e => e.1 != p)

/-- Write (create or overwrite) a file of the given size. -/
def FS.write (fs : FS) (p : String) (sz : Nat) : FS := (p, sz) :: FS.remove fs p

/-- Write a batch of files. -/
def FS.writeAll (fs : FS) (l : List (String × Nat)) : FS :=
  l.foldl (fun a e => FS.write a e.1 e.2) fs

/-- Model of `shutil.rmtree`: drop every file below the directory. -/
def FS.removeDir (fs : FS) (dir : String) : FS :=
  fs.filter (fun e => !(strStarts e.1 (dir ++ "/")))

/-- Does path `p` match the non-recursive glob `dir/<pre>*<suf>`? -/
def globMatch (dir pre suf p : String) : Bool :=
  strStarts p (dir ++ "/" ++ pre) && strEnds p suf &&
  !((p.data.drop (dir.data.length + 1)).contains slashChar) &&
  decide (dir.data.length + 1 + pre.data.length + suf.data.length ≤ p.data.length)

/-- Model of `sorted(glob.glob(os.path.join(dir, pre + "*" + suf)))`. -/
def globFiles (fs : FS) (dir pre suf : String) : List String :=
  sortStrings ((fs.map Prod.fst).filter (globMatch dir pre suf))

/-- The source-chunk glob `chunk_*.mp4` used by `split_video` and `convert`. -/
def globChunks (fs : FS) (dir : String) : List String := globFiles fs dir "chunk_" ".mp4"

/-- The encoded-chunk glob `*_encoded.mp4` used by the resume check. -/
def globEncoded (fs : FS) (dir : String) : List String := globFiles fs dir "" "_encoded.mp4"

/-- The 100 MiB chunk byte budget (`target_size_bytes` in `split_video`). -/
def target_size_bytes : ℚ := 100 * 1024 * 1024

/-- Segment duration computed by `split_video` (lines 121-127): the
byte-budget-proportional duration floored at 10 s, with a 300 s fallback when
size or duration is not positive. -/
def segment_time (file_size duration : ℚ) : ℚ :=
  if 0 < file_size ∧ 0 < duration then max 10 (target_size_bytes / file_size * duration)
  else 300

/-- Result of `split_video`: the filesystem, whether the external segmenter
was invoked, the segment time passed to it, and whether it raised. -/
structure SplitRes where
  fs : FS
  invoked : Bool
  segTime : Option ℚ
  raised : Bool

/-- Model of `split_video`: skip entirely when any `chunk_*.mp4` already
exists in the destination, otherwise invoke the segmenter (whose produced
chunk files are supplied by the environment as `segOut`; `none` means the
subprocess failed and `check=True` raised). -/
def split_video (fs : FS) (input_path outDir : String) (duration file_size : ℚ)
    (segOut : Option (List (String × Nat))) : SplitRes :=
  if (globChunks fs outDir).isEmpty then
    match segOut with
    | none => ⟨fs, true, some (segment_time file_size duration), true⟩
    | some files => ⟨FS.writeAll fs files, true, some (segment_time file_size duration), false⟩
  else ⟨fs, false, none, false⟩

/-- The safe-resume check (lines 244-250): if any encoded chunks exist in the
output work directory, delete the last one (in sorted order). -/
def resumeCheck (fs : FS) (outDir : String) : FS :=
  match (globEncoded fs outDir).getLast? with
  | none => fs
  | some last => FS.remove fs last

/-- Encoded-chunk path for a source chunk (line 270):
`output_work_dir/<chunk stem>_encoded.mp4`. -/
def encNameOf (outDir chunkPath : String) : String :=
  outDir ++ "/" ++ dropExt (baseName chunkPath) ++ "_encoded.mp4"

/-- Outcome of one external encode attempt: success writing a file of size
`sz`, or an exception, possibly leaving a leftover truncated file of size
`m` (`leftover = some m`) or no file at all. -/
inductive EncRes where
  | ok (sz : Nat)
  | err (leftover : Option Nat)
deriving DecidableEq

/-- Environment for one chunk iteration: the values returned by each read of
the global `interrupted` flag (at the loop top, line 262; by a qualifying
progress event during the first attempt, line 319; by the two reads in the
exception handler, lines 338 and 347), and the outcomes of the first encode
attempt and of the retry. -/
structure ChunkEnv where
  flagLoopTop : Bool
  flagDuring1 : Bool
  flagH1 : Bool
  flagH2 : Bool
  attempt1 : EncRes
  attempt2 : EncRes

/-- What happened to one chunk in the encode loop. -/
inductive ChunkAct where
  | skipped
  | encoded (retried : Bool)
  | brokeAtTop
  | interruptedRemoved
  | retryFailed
  | errorRaised
deriving DecidableEq

/-- Result of the chunk loop (lines 258-360): the filesystem, a per-chunk
record of what happened paired with whether termination of the in-flight
process was requested for that chunk, the `completed_chunks_in_this_loop`
flag, whether an exception propagated to the per-unit handler, and the
accumulated `encoded_chunks_list`. -/
structure LoopRes where
  fs : FS
  trace : List (ChunkAct × Bool)
  completed : Bool
  raised : Bool
  encList : List String

/-- The resume skip test (lines 273-276): an encoded chunk file exists and is
strictly larger than 1024 bytes. -/
def skipChunk (fs : FS) (p : String) : Bool :=
  match FS.size? fs p with
  | some sz => decide (1024 < sz)
  | none => false

/-- Apply the leftover file (if any) of a failed encode attempt. -/
def applyLeftover (fs : FS) (p : String) : Option Nat → FS
  | none => fs
  | some m => FS.write fs p m

/-- The per-chunk encode loop (lines 258-360).  `idx` is `c_idx`; a chunk is
last when no chunks follow.  Mirrors: the loop-top interrupt check (262-267,
non-last chunks only), the append to `encoded_chunks_list` (271), the
size-gated skip (273-276), the encode attempt, the progress callback's
terminate request (318-320, recorded in the trace, only for non-last chunks),
and the exception handler with its single last-chunk retry (332-357). -/
def encodeChunks (envs : Nat → ChunkEnv) (outDir : String) : Nat → FS → List String → LoopRes
  | _, fs, [] => ⟨fs, [], true, false, []⟩
  | idx, fs, c :: rest =>
    let ce := envs idx
    let isLast := rest.isEmpty
    if ce.flagLoopTop && !isLast then ⟨fs, [(ChunkAct.brokeAtTop, false)], false, false, []⟩
    else
      let encPath := encNameOf outDir c
      if skipChunk fs encPath then
        let r := encodeChunks envs outDir (idx + 1) fs rest
        ⟨r.fs, (ChunkAct.skipped, false) :: r.trace, r.completed, r.raised, encPath :: r.encList⟩
      else
        let term := ce.flagDuring1 && !isLast
        match ce.attempt1 with
        | EncRes.ok sz =>
          let r := encodeChunks envs outDir (idx + 1) (FS.write fs encPath sz) rest
          ⟨r.fs, (ChunkAct.encoded false, term) :: r.trace, r.completed, r.raised,
            encPath :: r.encList⟩
        | EncRes.err lo =>
          let fsE := applyLeftover fs encPath lo
          if ce.flagH1 && isLast then
            match ce.attempt2 with
            | EncRes.ok sz =>
              let r := encodeChunks envs outDir (idx + 1) (FS.write fsE encPath sz) rest
              ⟨r.fs, (ChunkAct.encoded true, term) :: r.trace, r.completed, r.raised,
                encPath :: r.encList⟩
            | EncRes.err lo2 =>
              ⟨applyLeftover fsE encPath lo2, [(ChunkAct.retryFailed, term)], false, false,
                [encPath]⟩
          else if ce.flagH2 then
            ⟨FS.remove fsE encPath, [(ChunkAct.interruptedRemoved, term)], false, false,
              [encPath]⟩
          else ⟨fsE, [(ChunkAct.errorRaised, term)], false, true, [encPath]⟩

/-- Executable absolute value on rationals (Python's `abs`). -/
def absQ (x : ℚ) : ℚ := if x < 0 then -x else x

/-- Result of the verify/cleanup stage (lines 370-390). -/
structure CleanRes where
  fs : FS
  raised : Bool
  deleted : Bool

/-- The verify/cleanup stage (lines 370-390): re-probe both durations; when
they agree within 10 s delete the source file and both temp directories.  Any
of the five operations may raise (`failAt`: 0 = probe source, 1 = probe
output, 2 = remove source, 3 = rmtree input dir, 4 = rmtree output dir); the
exception is caught by the stage's own handler (385-386). -/
def cleanupVerify (fs : FS) (file_path inDir outDir : String) (origD outD : ℚ)
    (failAt : Option Nat) : CleanRes :=
  if failAt = some 0 ∨ failAt = some 1 then ⟨fs, true, false⟩
  else if absQ (origD - outD) < 10 then
    if failAt = some 2 then ⟨fs, true, false⟩
    else
      let fs1 := FS.remove fs file_path
      if failAt = some 3 then ⟨fs1, true, true⟩
      else
        let fs2 := FS.removeDir fs1 inDir
        if failAt = some 4 then ⟨fs2, true, true⟩
        else ⟨FS.removeDir fs2 outDir, false, true⟩
  else ⟨fs, false, false⟩

/-- A work unit: one source file and the output directory of the run. -/
structure UnitSpec where
  file_path : String
  outputdir : String

/-- Lock-marker path of a unit (line 207). -/
def lockOf (u : UnitSpec) : String := u.file_path ++ ".lock"

/-- Base name of a unit (line 229). -/
def baseOf (u : UnitSpec) : String := dropExt (baseName u.file_path)

/-- Private input work directory holding the source chunks (line 233). -/
def inDirOf (u : UnitSpec) : String :=
  dirName u.file_path ++ "/.tmp_chunks_" ++ baseOf u

/-- Private output work directory holding the encoded chunks (line 236). -/
def outDirOf (u : UnitSpec) : String :=
  u.outputdir ++ "/.tmp_encoded_" ++ baseOf u

/-- Final output file of a unit (line 230). -/
def finalOutOf (u : UnitSpec) : String :=
  u.outputdir ++ "/" ++ baseOf u ++ ".mp4"

/-- Environment of one pass through `convert`'s per-file loop body: the value
of each read of the `interrupted` flag (lines 203, 242, per-chunk, 363, 394),
whether creating the lock raised, the initial probe's duration, the
segmenter's output, the merge outcome (`none` = raised), the two cleanup-time
probed durations, and which cleanup operation (if any) raised. -/
structure UnitEnv where
  flagOuterTop : Bool
  lockCreateRaises : Bool
  infoDuration : ℚ
  splitResult : Option (List (String × Nat))
  flagAfterSplit : Bool
  chunkEnvs : Nat → ChunkEnv
  flagAtMergeCheck : Bool
  mergeResult : Option Nat
  probeOrig : ℚ
  probeOut : ℚ
  cleanupFailAt : Option Nat
  flagAfterUnit : Bool

/-- How one pass through the loop body ended. -/
inductive UnitOutcome where
  | skippedLock
  | skippedMissing
  | skippedLockFail
  | brokeAfterSplit
  | brokeIncomplete
  | failed
  | processed
deriving DecidableEq

/-- Result of one pass through the loop body, with ghost fields recording the
filesystem when the split stage began and when the cleanup stage began. -/
structure UnitRes where
  fs : FS
  outcome : UnitOutcome
  counted : Bool
  breakOuter : Bool
  mergeCalled : Bool
  ctrace : List (ChunkAct × Bool)
  fsAtSplit : Option FS
  fsBeforeCleanup : Option FS
  segTimeUsed : Option ℚ

/-- The `finally` block (lines 402-407): remove the lock if it exists. -/
def unitRelease (lock : String) (fs : FS) : FS :=
  if FS.existsFile fs lock then FS.remove fs lock else fs

/-- Lines 362-396: the post-loop interrupt check, the merge, the
verify/cleanup stage, the `processed_count` increment, and the final
interrupt check, each exit passing through the `finally` lock release. -/
def afterLoop (env : UnitEnv) (u : UnitSpec) (gsplit : Option FS) (gseg : Option ℚ)
    (lr : LoopRes) : UnitRes :=
  let lock := lockOf u
  if env.flagAtMergeCheck && !lr.completed then
    ⟨unitRelease lock lr.fs, UnitOutcome.brokeIncomplete, false, true, false, lr.trace,
      gsplit, none, gseg⟩
  else if !lr.encList.isEmpty && lr.completed then
    match env.mergeResult with
    | none =>
      ⟨unitRelease lock lr.fs, UnitOutcome.failed, false, false, true, lr.trace,
        gsplit, none, gseg⟩
    | some osz =>
      let fsM := FS.write lr.fs (finalOutOf u) osz
      let cr := cleanupVerify fsM u.file_path (inDirOf u) (outDirOf u)
        env.probeOrig env.probeOut env.cleanupFailAt
      ⟨unitRelease lock cr.fs, UnitOutcome.processed, true, env.flagAfterUnit, true, lr.trace,
        gsplit, some fsM, gseg⟩
  else
    ⟨unitRelease lock lr.fs, UnitOutcome.processed, true, env.flagAfterUnit, false, lr.trace,
      gsplit, none, gseg⟩

/-- Current size of the source read at line 222. -/
def sizeQ (fs : FS) (p : String) : ℚ := ((FS.size? fs p).getD 0 : Nat)

/-- The split stage of a unit (line 240). -/
def splitOf (env : UnitEnv) (u : UnitSpec) (fs0 : FS) : SplitRes :=
  split_video fs0 u.file_path (inDirOf u) env.infoDuration
    (sizeQ fs0 u.file_path) env.splitResult

/-- The filesystem after the split stage and the resume check (line 245). -/
def fsAfterResume (env : UnitEnv) (u : UnitSpec) (fs0 : FS) : FS :=
  resumeCheck (splitOf env u fs0).fs (outDirOf u)

/-- The sorted source-chunk list of a unit (line 253). -/
def chunksOf (env : UnitEnv) (u : UnitSpec) (fs0 : FS) : List String :=
  globChunks (fsAfterResume env u fs0) (inDirOf u)

/-- The chunk-encode loop of a unit (lines 258-360). -/
def loopOf (env : UnitEnv) (u : UnitSpec) (fs0 : FS) : LoopRes :=
  encodeChunks env.chunkEnvs (outDirOf u) 0 (fsAfterResume env u fs0) (chunksOf env u fs0)

/-- The `try` body of the loop (lines 223-396): probe, split, post-split
interrupt check, resume check, chunk loop, then `afterLoop`; every exit path
goes through the `finally` lock release. -/
def unitBody (env : UnitEnv) (u : UnitSpec) (fs0 : FS) : UnitRes :=
  let lock := lockOf u
  let sp := splitOf env u fs0
  if sp.raised then
    ⟨unitRelease lock sp.fs, UnitOutcome.failed, false, false, false, [],
      some fs0, none, sp.segTime⟩
  else if env.flagAfterSplit then
    ⟨unitRelease lock sp.fs, UnitOutcome.brokeAfterSplit, false, true, false, [],
      some fs0, none, sp.segTime⟩
  else
    let lr := loopOf env u fs0
    if lr.raised then
      ⟨unitRelease lock lr.fs, UnitOutcome.failed, false, false, false, lr.trace,
        some fs0, none, sp.segTime⟩
    else afterLoop env u (some fs0) sp.segTime lr

/-- One pass of `convert`'s per-file loop body (lines 207-407): skip when the
lock exists, when the file is gone, or when the lock cannot be created;
otherwise create the lock and run the body. -/
def processUnit (env : UnitEnv) (u : UnitSpec) (fs : FS) : UnitRes :=
  let lock := lockOf u
  if FS.existsFile fs lock then
    ⟨fs, UnitOutcome.skippedLock, false, false, false, [], none, none, none⟩
  else if !(FS.existsFile fs u.file_path) then
    ⟨fs, UnitOutcome.skippedMissing, false, false, false, [], none, none, none⟩
  else if env.lockCreateRaises then
    ⟨fs, UnitOutcome.skippedLockFail, false, false, false, [], none, none, none⟩
  else unitBody env u (FS.write fs lock 0)

/-- The outer loop of `convert` (lines 201-407): process units in order,
stopping when the flag is observed at the loop top (line 203) or when a unit's
pass ends in a `break`. -/
def runUnits (envs : Nat → UnitEnv) : Nat → FS → List UnitSpec → FS × List UnitRes
  | _, fs, [] => (fs, [])
  | i, fs, u :: rest =>
    if (envs i).flagOuterTop then (fs, [])
    else
      let r := processUnit (envs i) u fs
      if r.breakOuter then (r.fs, [r])
      else
        let p := runUnits envs (i + 1) r.fs rest
        (p.1, r :: p.2)

/-- Filesystem with textual contents, for the merger model: path to the list
of strings written to the file (the manifest is written one line per
`f.write`). -/
abbrev CFS := List (String × List String)

/-- Write (create or overwrite) a text file. -/
def CFS.write (fs : CFS) (p : String) (v : List String) : CFS :=
  (p, v) :: fs.filter (fun e => e.1 != p)

/-- Look up a text file's content. -/
def CFS.look (fs : CFS) (p : String) : Option (List String) :=
  (fs.find? (fun e => e.1 == p)).map Prod.snd

/-- Remove a text file (tolerating absence, as the `finally` block does). -/
def CFS.remove (fs : CFS) (p : String) : CFS := fs.filter (fun e => e.1 != p)

/-- Escape single quotes as the merger does (line 162): each quote becomes
quote, backslash, quote, quote. -/
def escChars : List Char → List Char
  | [] => []
  | c :: cs =>
    if c == qChar then qChar :: bslashChar :: qChar :: qChar :: escChars cs
    else c :: escChars cs

/-- String form of `escChars`. -/
def escapeQuotes (s : String) : String := String.mk (escChars s.data)

/-- A one-character string holding the single quote. -/
def quoteStr : String := String.mk [qChar]

/-- One manifest line (line 164): `file '<escaped bare filename>'` plus the
newline, exactly the string passed to one `f.write`. -/
def manifestLine (chunkPath : String) : String :=
  "file " ++ quoteStr ++ escapeQuotes (baseName chunkPath) ++ quoteStr ++ "\n"

/-- Result of `merge_videos`: the filesystem, whether the concat succeeded,
whether the empty-input exception was raised, and ghost fields recording the
manifest path and content that were written. -/
structure MergeRes where
  fs : CFS
  ok : Bool
  raisedEmpty : Bool
  manifestPath : Option String
  manifestWritten : Option (List String)

/-- Model of `merge_videos` (lines 146-190): raise on an empty chunk list;
otherwise write the manifest `concat_list.txt` into the chunks' own
directory, one line per chunk in list order with quotes escaped, invoke the
external concat (success supplied by the environment as `concatOK`, writing
`outLines` to the output file on success), and remove the manifest in the
`finally` block regardless of the outcome (a concat failure then
propagates). -/
def merge_videos (fs : CFS) (chunk_list : List String) (output_file : String)
    (concatOK : Bool) (outLines : List String) : MergeRes :=
  match chunk_list with
  | [] => ⟨fs, false, true, none, none⟩
  | c0 :: _ =>
    let cpath := dirName c0 ++ "/concat_list.txt"
    let lines := chunk_list.map manifestLine
    let fs1 := CFS.write fs cpath lines
    if concatOK then
      ⟨CFS.remove (CFS.write fs1 output_file outLines) cpath, true, false,
        some cpath, some lines⟩
    else ⟨CFS.remove fs1 cpath, false, false, some cpath, some lines⟩

/-- Python division raising `ZeroDivisionError` on a zero divisor. -/
def pydiv (a b : ℚ) : Option ℚ := if b = 0 then none else some (a / b)

/-- The progress callback's ETA (line 309): 0 when the reported speed is 0,
otherwise remaining duration over speed. -/
def chunk_eta (chunk_duration elapsed speed : ℚ) : Option ℚ :=
  if speed = 0 then some 0 else pydiv (chunk_duration - elapsed) speed

/-- The progress callback's percentage (line 313):
`100 * progress.time.seconds / chunk_duration`, with no guard on the
divisor. -/
def progress_percent (chunk_duration elapsed : ℚ) : Option ℚ :=
  pydiv (100 * elapsed) chunk_duration

/-- Scenario predicate for C3: a unit that runs unhindered up to its last
chunk (index `j`), with the cancellation flag observed by a progress event
during that last chunk's first encode attempt. -/
def lastChunkFlagged (env : UnitEnv) (u : UnitSpec) (fs : FS) (j : Nat) : Prop :=
  FS.existsFile fs (lockOf u) = false ∧
  FS.existsFile fs u.file_path = true ∧
  env.lockCreateRaises = false ∧
  env.splitResult ≠ none ∧
  env.flagAfterSplit = false ∧
  (∀ i, (env.chunkEnvs i).flagLoopTop = false) ∧
  (∀ m, m < j → ∃ s, (env.chunkEnvs m).attempt1 = EncRes.ok s) ∧
  j + 1 = (chunksOf env u (FS.write fs (lockOf u) 0)).length ∧
  (env.chunkEnvs j).flagDuring1 = true

/-- Scenario predicate for C6/C10: an uninterrupted run in which every encode
attempt succeeds, the unit has at least one chunk, and the merge succeeds
writing an output file of size `osz`. -/
def smoothScenario (env : UnitEnv) (u : UnitSpec) (fs : FS) (osz : Nat) : Prop :=
  FS.existsFile fs (lockOf u) = false ∧
  FS.existsFile fs u.file_path = true ∧
  env.lockCreateRaises = false ∧
  env.splitResult ≠ none ∧
  env.flagAfterSplit = false ∧
  (∀ i, (env.chunkEnvs i).flagLoopTop = false) ∧
  (∀ m, ∃ s, (env.chunkEnvs m).attempt1 = EncRes.ok s) ∧
  chunksOf env u (FS.write fs (lockOf u) 0) ≠ [] ∧
  env.mergeResult = some osz

/-- Witness data: a chunk environment with no interruption and successful encodes. -/
def wChunkOk : ChunkEnv := ⟨false, false, false, false, EncRes.ok 5000, EncRes.ok 5000⟩

/-- Witness data: a work unit. -/
def wU : UnitSpec := ⟨"s/v.mp4", "o"⟩

/-- Witness data: a filesystem with the source and one pre-split chunk. -/
def wFs1 : FS := [("s/v.mp4", 999), ("s/.tmp_chunks_v/chunk_001.mp4", 50)]

/-- Witness data: a filesystem with the source and two pre-split chunks. -/
def wFs2 : FS :=
  [("s/v.mp4", 999), ("s/.tmp_chunks_v/chunk_001.mp4", 50),
   ("s/.tmp_chunks_v/chunk_002.mp4", 50)]

/-- Witness data: an uninterrupted environment whose cleanup probes agree. -/
def wEnvA : UnitEnv :=
  ⟨false, false, 0, some [], false, fun _ => wChunkOk, false, some 4000, 100, 101, none, false⟩

/-- Witness data: an uninterrupted environment with an 11 s duration mismatch. -/
def wEnvB : UnitEnv :=
  ⟨false, false, 0, some [], false, fun _ => wChunkOk, false, some 4000, 100, 111, none, false⟩

/-- Witness data: an environment whose first cleanup probe raises. -/
def wEnvFail : UnitEnv :=
  ⟨false, false, 0, some [], false, fun _ => wChunkOk, false, some 4000, 100, 101, some 0, false⟩

/-- Witness data: chunk environments where the flag is observed during chunk 0,
whose first encode attempt then fails. -/
def wCE2 : Nat → ChunkEnv := fun i =>
  if i = 0 then ⟨false, true, false, true, EncRes.err (some 10), EncRes.ok 1⟩ else wChunkOk

/-- Witness data: an environment interrupted during the first of two chunks. -/
def wEnvC2 : UnitEnv :=
  ⟨false, false, 0, some [], false, wCE2, true, some 4000, 100, 101, none, false⟩

/-- Witness data: chunk environments flagged during a successful encode. -/
def wCE3a : Nat → ChunkEnv := fun _ => ⟨false, true, false, false, EncRes.ok 5000, EncRes.ok 1⟩

/-- Witness data: environment flagged during the last chunk, encode succeeds. -/
def wEnvC3a : UnitEnv :=
  ⟨false, false, 0, some [], false, wCE3a, false, some 4000, 100, 101, none, false⟩

/-- Witness data: chunk environments whose first attempt fails and retry succeeds. -/
def wCE3b : Nat → ChunkEnv := fun _ => ⟨false, true, true, false, EncRes.err none, EncRes.ok 6000⟩

/-- Witness data: environment flagged during the last chunk, retry succeeds. -/
def wEnvC3b : UnitEnv :=
  ⟨false, false, 0, some [], false, wCE3b, false, some 4000, 100, 101, none, false⟩

/-- Witness data: chunk environments where both attempts fail. -/
def wCE3c : Nat → ChunkEnv :=
  fun _ => ⟨false, true, true, true, EncRes.err none, EncRes.err none⟩

/-- Witness data: environment flagged during the last chunk, retry also fails. -/
def wEnvC3c : UnitEnv :=
  ⟨false, false, 0, some [], false, wCE3c, true, some 4000, 100, 101, none, false⟩

/-- Witness data: an output work directory holding encoded chunks 1 and 2. -/
def wFsC1 : FS := [("o/chunk_001_encoded.mp4", 5000), ("o/chunk_002_encoded.mp4", 4000)]

/-- Witness data: three source chunks. -/
def wCsC1 : List String := ["i/chunk_001.mp4", "i/chunk_002.mp4", "i/chunk_003.mp4"]

theorem absQ_eq_abs (x : ℚ) : absQ x = |x| := by
  unfold absQ
  by_cases h : x < 0
  · rw [if_pos h, abs_of_neg h]
  · rw [if_neg h, abs_of_nonneg (le_of_not_lt h)]

theorem fs_size?_remove (fs : FS) (p q : String) :
    FS.size? (FS.remove fs p) q = if q = p then none else FS.size? fs q := by
  induction fs with
  | nil => simp [FS.remove, FS.size?]
  | cons e fs ih =>
    simp only [FS.remove, List.filter_cons] at ih ⊢
    by_cases hep : e.1 = p
    · simp only [hep, bne_self_eq_false, Bool.false_eq_true, if_false]
      rw [ih]
      by_cases hqp : q = p
      · simp [hqp]
      · simp only [if_neg hqp, FS.size?, List.find?_cons]
        have h1 : (e.1 == q) = false := by
          simp only [beq_eq_false_iff_ne, ne_eq, hep]
          exact fun h => hqp h.symm
        simp [h1]
    · have hbne : (e.1 != p) = true := by simp [bne_iff_ne, hep]
      simp only [hbne, if_true]
      by_cases heq : e.1 = q
      · have hqp : ¬(q = p) := by rw [← heq]; exact fun h => hep h
        simp [FS.size?, List.find?_cons, heq, if_neg hqp]
      · have h1 : (e.1 == q) = false := by simp [heq]
        simp only [FS.size?, List.find?_cons, h1, cond_false]
        exact ih

theorem fs_size?_remove_self (fs : FS) (p : String) :
    FS.size? (FS.remove fs p) p = none := by
  rw [fs_size?_remove]; simp

theorem fs_size?_remove_ne (fs : FS) {p q : String} (h : q ≠ p) :
    FS.size? (FS.remove fs p) q = FS.size? fs q := by
  rw [fs_size?_remove]; simp [h]

theorem fs_size?_write_self (fs : FS) (p : String) (sz : Nat) :
    FS.size? (FS.write fs p sz) p = some sz := by
  simp [FS.write, FS.size?, List.find?_cons]

theorem fs_size?_write_ne (fs : FS) {p q : String} (sz : Nat) (h : q ≠ p) :
    FS.size? (FS.write fs p sz) q = FS.size? fs q := by
  have h1 : (p == q) = false := by
    simp only [beq_eq_false_iff_ne, ne_eq]
    exact fun hc => h hc.symm
  simp only [FS.write, FS.size?, List.find?_cons, h1, cond_false]
  have := fs_size?_remove_ne fs h
  simpa [FS.size?] using this

theorem fs_existsFile_remove_self (fs : FS) (p : String) :
    FS.existsFile (FS.remove fs p) p = false := by
  simp [FS.existsFile, fs_size?_remove_self]

theorem fs_existsFile_remove_of_absent (fs : FS) {p q : String}
    (h : FS.existsFile fs q = false) : FS.existsFile (FS.remove fs p) q = false := by
  by_cases hqp : q = p
  · subst hqp; exact fs_existsFile_remove_self fs q
  · simpa [FS.existsFile, fs_size?_remove_ne fs hqp] using h

theorem unitRelease_lock_absent (lock : String) (fs : FS) :
    FS.existsFile (unitRelease lock fs) lock = false := by
  unfold unitRelease
  by_cases h : FS.existsFile fs lock = true
  · simp [h, fs_existsFile_remove_self]
  · simp only [Bool.not_eq_true] at h
    simp [h]

theorem unitRelease_preserves_absent (lock : String) (fs : FS) {q : String}
    (h : FS.existsFile fs q = false) :
    FS.existsFile (unitRelease lock fs) q = false := by
  unfold unitRelease
  by_cases hl : FS.existsFile fs lock = true
  · simp [hl, fs_existsFile_remove_of_absent fs h]
  · simp only [Bool.not_eq_true] at hl
    simp [hl, h]

theorem insertSorted_perm (x : String) (l : List String) :
    List.Perm (insertSorted x l) (x :: l) := by
  induction l with
  | nil => simp [insertSorted]
  | cons y ys ih =>
    unfold insertSorted
    by_cases h : strLe x y = true
    · simp [h]
    · simp only [Bool.not_eq_true] at h
      simp only [h, Bool.false_eq_true, if_false]
      exact List.Perm.trans (List.Perm.cons y ih) (List.Perm.swap x y ys)

theorem sortStrings_perm (l : List String) : List.Perm (sortStrings l) l := by
  induction l with
  | nil => simp [sortStrings]
  | cons x xs ih =>
    unfold sortStrings
    exact List.Perm.trans (insertSorted_perm x _) (List.Perm.cons x ih)

theorem sortStrings_nodup {l : List String} (h : l.Nodup) : (sortStrings l).Nodup :=
  ((sortStrings_perm l).nodup_iff).mpr h

theorem globFiles_nodup (fs : FS) (dir pre suf : String)
    (h : (fs.map Prod.fst).Nodup) : (globFiles fs dir pre suf).Nodup :=
  sortStrings_nodup (h.filter _)

theorem encodeChunks_skip_prefix (envs : Nat → ChunkEnv) (outDir : String)
    (pre post : List String) (fs : FS) (i0 : Nat)
    (hflag : ∀ i, (envs i).flagLoopTop = false)
    (hskip : ∀ c ∈ pre, skipChunk fs (encNameOf outDir c) = true) :
    encodeChunks envs outDir i0 fs (pre ++ post) =
      { fs := (encodeChunks envs outDir (i0 + pre.length) fs post).fs
        trace := pre.map (fun _ => (ChunkAct.skipped, false)) ++
          (encodeChunks envs outDir (i0 + pre.length) fs post).trace
        completed := (encodeChunks envs outDir (i0 + pre.length) fs post).completed
        raised := (encodeChunks envs outDir (i0 + pre.length) fs post).raised
        encList := pre.map (encNameOf outDir) ++
          (encodeChunks envs outDir (i0 + pre.length) fs post).encList } := by
  induction pre generalizing i0 with
  | nil => simp
  | cons c pre ih =>
    have hc : skipChunk fs (encNameOf outDir c) = true := hskip c (by simp)
    have hrest : ∀ x ∈ pre, skipChunk fs (encNameOf outDir x) = true :=
      fun x hx => hskip x (by simp [hx])
    have harith : i0 + 1 + pre.length = i0 + (pre.length + 1) := by omega
    simp only [List.cons_append, encodeChunks, hflag i0, Bool.false_and, Bool.false_eq_true,
      if_false, hc, if_true, List.append_eq]
    rw [ih (i0 + 1) hrest]
    simp [harith]

theorem encodeChunks_pass_prefix (envs : Nat → ChunkEnv) (outDir : String)
    (pre post : List String) (fs : FS) (i0 : Nat)
    (hflag : ∀ i, (envs i).flagLoopTop = false)
    (hok : ∀ m, m < pre.length → ∃ s, (envs (i0 + m)).attempt1 = EncRes.ok s) :
    ∃ fs1 tr1, tr1.length = pre.length ∧
      (∀ q, (∀ c ∈ pre, q ≠ encNameOf outDir c) → FS.size? fs1 q = FS.size? fs q) ∧
      encodeChunks envs outDir i0 fs (pre ++ post) =
        { fs := (encodeChunks envs outDir (i0 + pre.length) fs1 post).fs
          trace := tr1 ++ (encodeChunks envs outDir (i0 + pre.length) fs1 post).trace
          completed := (encodeChunks envs outDir (i0 + pre.length) fs1 post).completed
          raised := (encodeChunks envs outDir (i0 + pre.length) fs1 post).raised
          encList := pre.map (encNameOf outDir) ++
            (encodeChunks envs outDir (i0 + pre.length) fs1 post).encList } := by
  induction pre generalizing i0 fs with
  | nil => exact ⟨fs, [], rfl, fun q _ => rfl, by simp⟩
  | cons c pre ih =>
    have harith : ∀ n : Nat, i0 + 1 + n = i0 + (n + 1) := fun n => by omega
    by_cases hsk : skipChunk fs (encNameOf outDir c) = true
    · obtain ⟨fs1, tr1, hlen, hpres, heq⟩ := ih fs (i0 + 1)
        (fun m hm => by
          have := hok (m + 1) (by simpa using Nat.succ_lt_succ hm)
          simpa [harith] using this)
      refine ⟨fs1, (ChunkAct.skipped, false) :: tr1, by simp [hlen], ?_, ?_⟩
      · intro q hq
        exact hpres q (fun x hx => hq x (by simp [hx]))
      · simp only [List.cons_append, encodeChunks, hflag i0, Bool.false_and, Bool.false_eq_true,
          if_false, hsk, if_true, List.append_eq]
        rw [heq]
        simp [harith]
    · obtain ⟨s, hs⟩ := hok 0 (by simp)
      simp only [Nat.add_zero] at hs
      obtain ⟨fs1, tr1, hlen, hpres, heq⟩ := ih (FS.write fs (encNameOf outDir c) s) (i0 + 1)
        (fun m hm => by
          have := hok (m + 1) (by simpa using Nat.succ_lt_succ hm)
          simpa [harith] using this)
      refine ⟨fs1, (ChunkAct.encoded false,
        (envs i0).flagDuring1 && !(pre ++ post).isEmpty == true) :: tr1, by simp [hlen], ?_, ?_⟩
      · intro q hq
        rw [hpres q (fun x hx => hq x (by simp [hx]))]
        exact fs_size?_write_ne _ s (hq c (by simp))
      · simp only [List.cons_append, encodeChunks, hflag i0, Bool.false_and, Bool.false_eq_true,
          if_false, hsk, hs, List.append_eq]
        rw [heq]
        simp [harith]

theorem encodeChunks_all_ok (envs : Nat → ChunkEnv) (outDir : String)
    (cs : List String) (fs : FS)
    (hflag : ∀ i, (envs i).flagLoopTop = false)
    (hok : ∀ m, m < cs.length → ∃ s, (envs m).attempt1 = EncRes.ok s) :
    (encodeChunks envs outDir 0 fs cs).completed = true ∧
    (encodeChunks envs outDir 0 fs cs).raised = false ∧
    (encodeChunks envs outDir 0 fs cs).encList = cs.map (encNameOf outDir) := by
  obtain ⟨fs1, tr1, hlen, hpres, heq⟩ := encodeChunks_pass_prefix envs outDir cs [] fs 0 hflag
    (fun m hm => by simpa using hok m hm)
  rw [List.append_nil] at heq
  rw [heq]
  simp [encodeChunks]

theorem splitOf_not_raised (env : UnitEnv) (u : UnitSpec) (fs0 : FS)
    (h : env.splitResult ≠ none) : (splitOf env u fs0).raised = false := by
  unfold splitOf split_video
  cases hso : env.splitResult with
  | none => exact absurd hso h
  | some files =>
    by_cases hge : (globChunks fs0 (inDirOf u)).isEmpty = true <;> simp [hge, hso]

theorem processUnit_run (env : UnitEnv) (u : UnitSpec) (fs : FS)
    (h1 : FS.existsFile fs (lockOf u) = false)
    (h2 : FS.existsFile fs u.file_path = true)
    (h3 : env.lockCreateRaises = false) :
    processUnit env u fs = unitBody env u (FS.write fs (lockOf u) 0) := by
  simp [processUnit, h1, h2, h3]

theorem unitBody_eq_afterLoop (env : UnitEnv) (u : UnitSpec) (fs0 : FS)
    (hsp : (splitOf env u fs0).raised = false)
    (hfl : env.flagAfterSplit = false)
    (hlr : (loopOf env u fs0).raised = false) :
    unitBody env u fs0 =
      afterLoop env u (some fs0) (splitOf env u fs0).segTime (loopOf env u fs0) := by
  simp [unitBody, hsp, hfl, hlr]

theorem processUnit_to_afterLoop (env : UnitEnv) (u : UnitSpec) (fs : FS)
    (h1 : FS.existsFile fs (lockOf u) = false)
    (h2 : FS.existsFile fs u.file_path = true)
    (h3 : env.lockCreateRaises = false)
    (hsp : env.splitResult ≠ none)
    (hfl : env.flagAfterSplit = false)
    (hlr : (loopOf env u (FS.write fs (lockOf u) 0)).raised = false) :
    processUnit env u fs =
      afterLoop env u (some (FS.write fs (lockOf u) 0))
        (splitOf env u (FS.write fs (lockOf u) 0)).segTime
        (loopOf env u (FS.write fs (lockOf u) 0)) := by
  rw [processUnit_run env u fs h1 h2 h3,
    unitBody_eq_afterLoop env u _ (splitOf_not_raised env u _ hsp) hfl hlr]

theorem afterLoop_incomplete (env : UnitEnv) (u : UnitSpec) (gs : Option FS)
    (gseg : Option ℚ) (lr : LoopRes)
    (h1 : env.flagAtMergeCheck = true) (h2 : lr.completed = false) :
    afterLoop env u gs gseg lr =
      ⟨unitRelease (lockOf u) lr.fs, UnitOutcome.brokeIncomplete, false, true, false,
        lr.trace, gs, none, gseg⟩ := by
  simp [afterLoop, h1, h2]

theorem afterLoop_merge_some (env : UnitEnv) (u : UnitSpec) (gs : Option FS)
    (gseg : Option ℚ) (lr : LoopRes) (osz : Nat)
    (h1 : lr.completed = true) (h2 : lr.encList ≠ []) (h3 : env.mergeResult = some osz) :
    afterLoop env u gs gseg lr =
      ⟨unitRelease (lockOf u)
          (cleanupVerify (FS.write lr.fs (finalOutOf u) osz) u.file_path (inDirOf u)
            (outDirOf u) env.probeOrig env.probeOut env.cleanupFailAt).fs,
        UnitOutcome.processed, true, env.flagAfterUnit, true, lr.trace, gs,
        some (FS.write lr.fs (finalOutOf u) osz), gseg⟩ := by
  have h2b : lr.encList.isEmpty = false := by
    cases he : lr.encList with
    | nil => exact absurd he h2
    | cons a l => rfl
  simp [afterLoop, h1, h2b, h3]

theorem afterLoop_mergeCalled (env : UnitEnv) (u : UnitSpec) (gs : Option FS)
    (gseg : Option ℚ) (lr : LoopRes)
    (h1 : lr.completed = true) (h2 : lr.encList ≠ []) :
    (afterLoop env u gs gseg lr).mergeCalled = true ∧
    (afterLoop env u gs gseg lr).ctrace = lr.trace := by
  have h2b : lr.encList.isEmpty = false := by
    cases he : lr.encList with
    | nil => exact absurd he h2
    | cons a l => rfl
  cases h3 : env.mergeResult with
  | none => simp [afterLoop, h1, h2b, h3]
  | some osz => simp [afterLoop, h1, h2b, h3]

theorem afterLoop_lock_absent (env : UnitEnv) (u : UnitSpec) (gs : Option FS)
    (gseg : Option ℚ) (lr : LoopRes) :
    FS.existsFile (afterLoop env u gs gseg lr).fs (lockOf u) = false := by
  unfold afterLoop
  by_cases h1 : (env.flagAtMergeCheck && !lr.completed) = true
  · simp only [h1, if_true]
    exact unitRelease_lock_absent _ _
  · simp only [Bool.not_eq_true] at h1
    by_cases h2 : (!lr.encList.isEmpty && lr.completed) = true
    · simp only [h1, Bool.false_eq_true, if_false, h2, if_true]
      cases h3 : env.mergeResult with
      | none => simp only []; exact unitRelease_lock_absent _ _
      | some osz => simp only []; exact unitRelease_lock_absent _ _
    · simp only [Bool.not_eq_true] at h2
      simp only [h1, h2, Bool.false_eq_true, if_false]
      exact unitRelease_lock_absent _ _

theorem unitBody_lock_absent (env : UnitEnv) (u : UnitSpec) (fs0 : FS) :
    FS.existsFile (unitBody env u fs0).fs (lockOf u) = false := by
  unfold unitBody
  by_cases h1 : (splitOf env u fs0).raised = true
  · simp only [h1, if_true]
    exact unitRelease_lock_absent _ _
  · simp only [Bool.not_eq_true] at h1
    by_cases h2 : env.flagAfterSplit = true
    · simp only [h1, h2, Bool.false_eq_true, if_false, if_true]
      exact unitRelease_lock_absent _ _
    · simp only [Bool.not_eq_true] at h2
      by_cases h3 : (loopOf env u fs0).raised = true
      · simp only [h1, h2, h3, Bool.false_eq_true, if_false, if_true]
        exact unitRelease_lock_absent _ _
      · simp only [Bool.not_eq_true] at h3
        simp only [h1, h2, h3, Bool.false_eq_true, if_false]
        exact afterLoop_lock_absent _ _ _ _ _

theorem afterLoop_fsAtSplit (env : UnitEnv) (u : UnitSpec) (gs : Option FS)
    (gseg : Option ℚ) (lr : LoopRes) :
    (afterLoop env u gs gseg lr).fsAtSplit = gs := by
  unfold afterLoop
  by_cases h1 : (env.flagAtMergeCheck && !lr.completed) = true
  · simp [h1]
  · simp only [Bool.not_eq_true] at h1
    by_cases h2 : (!lr.encList.isEmpty && lr.completed) = true
    · simp only [h1, Bool.false_eq_true, if_false, h2, if_true]
      cases h3 : env.mergeResult with
      | none => simp
      | some osz => simp
    · simp only [Bool.not_eq_true] at h2
      simp [h1, h2]

theorem unitBody_fsAtSplit (env : UnitEnv) (u : UnitSpec) (fs0 : FS) :
    (unitBody env u fs0).fsAtSplit = some fs0 := by
  unfold unitBody
  by_cases h1 : (splitOf env u fs0).raised = true
  · simp [h1]
  · simp only [Bool.not_eq_true] at h1
    by_cases h2 : env.flagAfterSplit = true
    · simp [h1, h2]
    · simp only [Bool.not_eq_true] at h2
      by_cases h3 : (loopOf env u fs0).raised = true
      · simp [h1, h2, h3]
      · simp only [Bool.not_eq_true] at h3
        simp only [h1, h2, h3, Bool.false_eq_true, if_false]
        exact afterLoop_fsAtSplit _ _ _ _ _

theorem skipChunk_congr {fs1 fs2 : FS} {p : String}
    (h : FS.size? fs1 p = FS.size? fs2 p) : skipChunk fs1 p = skipChunk fs2 p := by
  unfold skipChunk
  rw [h]

theorem loopOf_decomp (env : UnitEnv) (u : UnitSpec) (fs0 : FS) (j : Nat)
    (hflag : ∀ i, (env.chunkEnvs i).flagLoopTop = false)
    (hpre : ∀ m, m < j → ∃ s, (env.chunkEnvs m).attempt1 = EncRes.ok s)
    (hjlt : j < (chunksOf env u fs0).length)
    (hnskip : skipChunk (fsAfterResume env u fs0)
      (encNameOf (outDirOf u) ((chunksOf env u fs0).getD j "")) = false)
    (hne : ∀ c ∈ (chunksOf env u fs0).take j,
      encNameOf (outDirOf u) ((chunksOf env u fs0).getD j "") ≠ encNameOf (outDirOf u) c) :
    ∃ fs1 tr1, tr1.length = j ∧
      skipChunk fs1 (encNameOf (outDirOf u) ((chunksOf env u fs0).getD j "")) = false ∧
      loopOf env u fs0 =
        { fs := (encodeChunks env.chunkEnvs (outDirOf u) j fs1
            ((chunksOf env u fs0).drop j)).fs
          trace := tr1 ++ (encodeChunks env.chunkEnvs (outDirOf u) j fs1
            ((chunksOf env u fs0).drop j)).trace
          completed := (encodeChunks env.chunkEnvs (outDirOf u) j fs1
            ((chunksOf env u fs0).drop j)).completed
          raised := (encodeChunks env.chunkEnvs (outDirOf u) j fs1
            ((chunksOf env u fs0).drop j)).raised
          encList := ((chunksOf env u fs0).take j).map (encNameOf (outDirOf u)) ++
            (encodeChunks env.chunkEnvs (outDirOf u) j fs1
              ((chunksOf env u fs0).drop j)).encList } := by
  have htl : ((chunksOf env u fs0).take j).length = j := by
    simp [List.length_take, Nat.min_eq_left (Nat.le_of_lt hjlt)]
  obtain ⟨fs1, tr1, hlen, hpres, heq⟩ := encodeChunks_pass_prefix env.chunkEnvs (outDirOf u)
    ((chunksOf env u fs0).take j) ((chunksOf env u fs0).drop j) (fsAfterResume env u fs0) 0
    hflag (fun m hm => by
      have hm2 : m < j := htl ▸ hm
      simpa using hpre m hm2)
  refine ⟨fs1, tr1, by rw [hlen, htl], ?_, ?_⟩
  · rw [skipChunk_congr (hpres _ hne)]
    exact hnskip
  · have : loopOf env u fs0 = encodeChunks env.chunkEnvs (outDirOf u) 0
        (fsAfterResume env u fs0)
        ((chunksOf env u fs0).take j ++ (chunksOf env u fs0).drop j) := by
      rw [List.take_append_drop]
      rfl
    rw [this, heq, htl]
    simp

theorem encodeChunks_cons_removed (envs : Nat → ChunkEnv) (outDir : String) (idx : Nat)
    (fs : FS) (c : String) (rest : List String) (lo : Option Nat)
    (hflag : (envs idx).flagLoopTop = false)
    (hrest : rest.isEmpty = false)
    (hskip : skipChunk fs (encNameOf outDir c) = false)
    (ha1 : (envs idx).attempt1 = EncRes.err lo)
    (hd1 : (envs idx).flagDuring1 = true)
    (hh2 : (envs idx).flagH2 = true) :
    encodeChunks envs outDir idx fs (c :: rest) =
      ⟨FS.remove (applyLeftover fs (encNameOf outDir c) lo) (encNameOf outDir c),
        [(ChunkAct.interruptedRemoved, true)], false, false, [encNameOf outDir c]⟩ := by
  simp [encodeChunks, hflag, hrest, hskip, ha1, hd1, hh2]

theorem encodeChunks_last_skip (envs : Nat → ChunkEnv) (outDir : String) (idx : Nat)
    (fs : FS) (c : String)
    (hskip : skipChunk fs (encNameOf outDir c) = true) :
    encodeChunks envs outDir idx fs [c] =
      ⟨fs, [(ChunkAct.skipped, false)], true, false, [encNameOf outDir c]⟩ := by
  simp [encodeChunks, hskip]

theorem encodeChunks_last_ok (envs : Nat → ChunkEnv) (outDir : String) (idx : Nat)
    (fs : FS) (c : String) (sz : Nat)
    (hskip : skipChunk fs (encNameOf outDir c) = false)
    (ha1 : (envs idx).attempt1 = EncRes.ok sz) :
    encodeChunks envs outDir idx fs [c] =
      ⟨FS.write fs (encNameOf outDir c) sz, [(ChunkAct.encoded false, false)], true, false,
        [encNameOf outDir c]⟩ := by
  simp [encodeChunks, hskip, ha1]

theorem encodeChunks_last_retry_ok (envs : Nat → ChunkEnv) (outDir : String) (idx : Nat)
    (fs : FS) (c : String) (lo : Option Nat) (sz : Nat)
    (hskip : skipChunk fs (encNameOf outDir c) = false)
    (ha1 : (envs idx).attempt1 = EncRes.err lo)
    (hh1 : (envs idx).flagH1 = true)
    (ha2 : (envs idx).attempt2 = EncRes.ok sz) :
    encodeChunks envs outDir idx fs [c] =
      ⟨FS.write (applyLeftover fs (encNameOf outDir c) lo) (encNameOf outDir c) sz,
        [(ChunkAct.encoded true, false)], true, false, [encNameOf outDir c]⟩ := by
  simp [encodeChunks, hskip, ha1, hh1, ha2]

theorem encodeChunks_last_retry_err (envs : Nat → ChunkEnv) (outDir : String) (idx : Nat)
    (fs : FS) (c : String) (lo lo2 : Option Nat)
    (hskip : skipChunk fs (encNameOf outDir c) = false)
    (ha1 : (envs idx).attempt1 = EncRes.err lo)
    (hh1 : (envs idx).flagH1 = true)
    (ha2 : (envs idx).attempt2 = EncRes.err lo2) :
    encodeChunks envs outDir idx fs [c] =
      ⟨applyLeftover (applyLeftover fs (encNameOf outDir c) lo) (encNameOf outDir c) lo2,
        [(ChunkAct.retryFailed, false)], false, false, [encNameOf outDir c]⟩ := by
  simp [encodeChunks, hskip, ha1, hh1, ha2]

theorem encodeChunks_last_removed (envs : Nat → ChunkEnv) (outDir : String) (idx : Nat)
    (fs : FS) (c : String) (lo : Option Nat)
    (hskip : skipChunk fs (encNameOf outDir c) = false)
    (ha1 : (envs idx).attempt1 = EncRes.err lo)
    (hh1 : (envs idx).flagH1 = false)
    (hh2 : (envs idx).flagH2 = true) :
    encodeChunks envs outDir idx fs [c] =
      ⟨FS.remove (applyLeftover fs (encNameOf outDir c) lo) (encNameOf outDir c),
        [(ChunkAct.interruptedRemoved, false)], false, false, [encNameOf outDir c]⟩ := by
  simp [encodeChunks, hskip, ha1, hh1, hh2]

theorem encodeChunks_last_raised (envs : Nat → ChunkEnv) (outDir : String) (idx : Nat)
    (fs : FS) (c : String) (lo : Option Nat)
    (hskip : skipChunk fs (encNameOf outDir c) = false)
    (ha1 : (envs idx).attempt1 = EncRes.err lo)
    (hh1 : (envs idx).flagH1 = false)
    (hh2 : (envs idx).flagH2 = false) :
    encodeChunks envs outDir idx fs [c] =
      ⟨applyLeftover fs (encNameOf outDir c) lo,
        [(ChunkAct.errorRaised, false)], false, true, [encNameOf outDir c]⟩ := by
  simp [encodeChunks, hskip, ha1, hh1, hh2]

theorem afterLoop_ctrace (env : UnitEnv) (u : UnitSpec) (gs : Option FS)
    (gseg : Option ℚ) (lr : LoopRes) : (afterLoop env u gs gseg lr).ctrace = lr.trace := by
  unfold afterLoop
  by_cases h1 : (env.flagAtMergeCheck && !lr.completed) = true
  · simp [h1]
  · simp only [Bool.not_eq_true] at h1
    by_cases h2 : (!lr.encList.isEmpty && lr.completed) = true
    · simp only [h1, Bool.false_eq_true, if_false, h2, if_true]
      cases h3 : env.mergeResult with
      | none => simp
      | some osz => simp
    · simp only [Bool.not_eq_true] at h2
      simp [h1, h2]

theorem unitBody_ctrace (env : UnitEnv) (u : UnitSpec) (fs0 : FS)
    (hsp : (splitOf env u fs0).raised = false)
    (hfl : env.flagAfterSplit = false) :
    (unitBody env u fs0).ctrace = (loopOf env u fs0).trace := by
  unfold unitBody
  by_cases h3 : (loopOf env u fs0).raised = true
  · simp [hsp, hfl, h3]
  · simp only [Bool.not_eq_true] at h3
    simp only [hsp, hfl, h3, Bool.false_eq_true, if_false]
    exact afterLoop_ctrace _ _ _ _ _

theorem append_singleton_at {α : Type} (tr1 : List α) (e : α) (j : Nat)
    (hlen : tr1.length = j) : (tr1 ++ [e])[j]? = some e := by
  rw [List.getElem?_append_right (by omega)]
  simp [hlen]

/-- C2: if the cancellation flag is observed by a progress event while
encoding a non-last chunk `j` and the terminated encode raises, then the trace
shows termination was requested and the partial file removed, the chunk loop
stops at `j`, the partially written encoded chunk is absent from the final
filesystem, no merge is attempted, the unit is not counted, and the outer
loop stops after this unit. -/
theorem c2_cancel_nonlast (env : UnitEnv) (u : UnitSpec) (fs : FS) (j : Nat) (lo : Option Nat)
    (hlock : FS.existsFile fs (lockOf u) = false)
    (hfile : FS.existsFile fs u.file_path = true)
    (hcr : env.lockCreateRaises = false)
    (hsp : env.splitResult ≠ none)
    (hfl : env.flagAfterSplit = false)
    (hflag : ∀ i, (env.chunkEnvs i).flagLoopTop = false)
    (hpre : ∀ m, m < j → ∃ s, (env.chunkEnvs m).attempt1 = EncRes.ok s)
    (hj : j + 1 < (chunksOf env u (FS.write fs (lockOf u) 0)).length)
    (hnskip : skipChunk (fsAfterResume env u (FS.write fs (lockOf u) 0))
      (encNameOf (outDirOf u)
        ((chunksOf env u (FS.write fs (lockOf u) 0)).getD j "")) = false)
    (hne : ∀ c ∈ (chunksOf env u (FS.write fs (lockOf u) 0)).take j,
      encNameOf (outDirOf u) ((chunksOf env u (FS.write fs (lockOf u) 0)).getD j "") ≠
        encNameOf (outDirOf u) c)
    (hd1 : (env.chunkEnvs j).flagDuring1 = true)
    (ha1 : (env.chunkEnvs j).attempt1 = EncRes.err lo)
    (hh2 : (env.chunkEnvs j).flagH2 = true)
    (hmc : env.flagAtMergeCheck = true)
    (hot : env.flagOuterTop = false) :
    (processUnit env u fs).ctrace[j]? = some (ChunkAct.interruptedRemoved, true) ∧
    (processUnit env u fs).ctrace.length = j + 1 ∧
    (processUnit env u fs).mergeCalled = false ∧
    (processUnit env u fs).counted = false ∧
    (processUnit env u fs).breakOuter = true ∧
    FS.existsFile (processUnit env u fs).fs
      (encNameOf (outDirOf u)
        ((chunksOf env u (FS.write fs (lockOf u) 0)).getD j "")) = false ∧
    (∀ rest, ((runUnits (fun _ => env) 0 fs (u :: rest)).2).length = 1) := by
  obtain ⟨fs1, tr1, hlen, hskip1, hloop⟩ := loopOf_decomp env u (FS.write fs (lockOf u) 0) j
    hflag hpre (by omega) hnskip hne
  have hjl : j < (chunksOf env u (FS.write fs (lockOf u) 0)).length := by omega
  have hdrop : (chunksOf env u (FS.write fs (lockOf u) 0)).drop j =
      (chunksOf env u (FS.write fs (lockOf u) 0)).getD j "" ::
        (chunksOf env u (FS.write fs (lockOf u) 0)).drop (j + 1) := by
    rw [List.getD_eq_getElem?_getD, List.getElem?_eq_getElem hjl]
    exact List.drop_eq_getElem_cons hjl
  have hlastne : ((chunksOf env u (FS.write fs (lockOf u) 0)).drop (j + 1)).isEmpty = false := by
    cases hd : (chunksOf env u (FS.write fs (lockOf u) 0)).drop (j + 1) with
    | nil =>
      have hdl := congrArg List.length hd
      simp only [List.length_drop, List.length_nil] at hdl
      omega
    | cons a l => rfl
  have hstep : encodeChunks env.chunkEnvs (outDirOf u) j fs1
      ((chunksOf env u (FS.write fs (lockOf u) 0)).drop j) =
      ⟨FS.remove (applyLeftover fs1
          (encNameOf (outDirOf u) ((chunksOf env u (FS.write fs (lockOf u) 0)).getD j "")) lo)
          (encNameOf (outDirOf u) ((chunksOf env u (FS.write fs (lockOf u) 0)).getD j "")),
        [(ChunkAct.interruptedRemoved, true)], false, false,
        [encNameOf (outDirOf u) ((chunksOf env u (FS.write fs (lockOf u) 0)).getD j "")]⟩ := by
    rw [hdrop]
    exact encodeChunks_cons_removed env.chunkEnvs (outDirOf u) j fs1 _ _ lo (hflag j)
      hlastne hskip1 ha1 hd1 hh2
  have hlr : loopOf env u (FS.write fs (lockOf u) 0) =
      { fs := FS.remove (applyLeftover fs1
            (encNameOf (outDirOf u) ((chunksOf env u (FS.write fs (lockOf u) 0)).getD j "")) lo)
            (encNameOf (outDirOf u) ((chunksOf env u (FS.write fs (lockOf u) 0)).getD j ""))
        trace := tr1 ++ [(ChunkAct.interruptedRemoved, true)]
        completed := false
        raised := false
        encList := ((chunksOf env u (FS.write fs (lockOf u) 0)).take j).map
            (encNameOf (outDirOf u)) ++
          [encNameOf (outDirOf u) ((chunksOf env u (FS.write fs (lockOf u) 0)).getD j "")] } := by
    rw [hloop, hstep]
  have hmain : processUnit env u fs =
      ⟨unitRelease (lockOf u) (loopOf env u (FS.write fs (lockOf u) 0)).fs,
        UnitOutcome.brokeIncomplete, false, true, false,
        (loopOf env u (FS.write fs (lockOf u) 0)).trace,
        some (FS.write fs (lockOf u) 0), none,
        (splitOf env u (FS.write fs (lockOf u) 0)).segTime⟩ := by
    rw [processUnit_to_afterLoop env u fs hlock hfile hcr hsp hfl (by rw [hlr]),
      afterLoop_incomplete env u _ _ _ hmc (by rw [hlr])]
  rw [hlr] at hmain
  refine ⟨?_, ?_, ?_, ?_, ?_, ?_, ?_⟩
  · rw [hmain]
    show (tr1 ++ [(ChunkAct.interruptedRemoved, true)])[j]? =
      some (ChunkAct.interruptedRemoved, true)
    rw [List.getElem?_append_right (by omega)]
    simp [hlen]
  · rw [hmain]
    show (tr1 ++ [(ChunkAct.interruptedRemoved, true)]).length = j + 1
    simp [hlen]
  · rw [hmain]
  · rw [hmain]
  · rw [hmain]
  · rw [hmain]
    apply unitRelease_preserves_absent
    exact fs_existsFile_remove_self _ _
  · intro rest
    simp only [runUnits, hot, Bool.false_eq_true, if_false]
    rw [hmain]
    simp


/-- C3: if the cancellation flag is observed while encoding the last chunk,
(a) termination of the in-flight process is never requested, whatever the
encode outcome; (b) if the first attempt raises with the flag set, the chunk
is retried exactly once and a successful retry leads to the merge being
invoked; (c) if the retry also raises, the unit is left incomplete (no merge,
not counted) and the outer loop stops after this unit. -/
theorem c3_cancel_last :
    (∀ env u fs j, lastChunkFlagged env u fs j →
      ∃ e, (processUnit env u fs).ctrace[j]? = some e ∧ e.2 = false) ∧
    (∀ env u fs j lo sz, lastChunkFlagged env u fs j →
      skipChunk (fsAfterResume env u (FS.write fs (lockOf u) 0))
        (encNameOf (outDirOf u)
          ((chunksOf env u (FS.write fs (lockOf u) 0)).getD j "")) = false →
      (∀ c ∈ (chunksOf env u (FS.write fs (lockOf u) 0)).take j,
        encNameOf (outDirOf u) ((chunksOf env u (FS.write fs (lockOf u) 0)).getD j "") ≠
          encNameOf (outDirOf u) c) →
      (env.chunkEnvs j).attempt1 = EncRes.err lo →
      (env.chunkEnvs j).flagH1 = true →
      (env.chunkEnvs j).attempt2 = EncRes.ok sz →
      (processUnit env u fs).ctrace[j]? = some (ChunkAct.encoded true, false) ∧
      (processUnit env u fs).mergeCalled = true) ∧
    (∀ env u fs j lo lo2, lastChunkFlagged env u fs j →
      skipChunk (fsAfterResume env u (FS.write fs (lockOf u) 0))
        (encNameOf (outDirOf u)
          ((chunksOf env u (FS.write fs (lockOf u) 0)).getD j "")) = false →
      (∀ c ∈ (chunksOf env u (FS.write fs (lockOf u) 0)).take j,
        encNameOf (outDirOf u) ((chunksOf env u (FS.write fs (lockOf u) 0)).getD j "") ≠
          encNameOf (outDirOf u) c) →
      (env.chunkEnvs j).attempt1 = EncRes.err lo →
      (env.chunkEnvs j).flagH1 = true →
      (env.chunkEnvs j).attempt2 = EncRes.err lo2 →
      env.flagAtMergeCheck = true →
      env.flagOuterTop = false →
      (processUnit env u fs).ctrace[j]? = some (ChunkAct.retryFailed, false) ∧
      (processUnit env u fs).mergeCalled = false ∧
      (processUnit env u fs).counted = false ∧
      (processUnit env u fs).breakOuter = true ∧
      (∀ rest, ((runUnits (fun _ => env) 0 fs (u :: rest)).2).length = 1)) := by
  refine ⟨?_, ?_, ?_⟩
  · rintro env u fs j ⟨hlock, hfile, hcr, hsp, hfl, hflag, hpre, hj, hd1⟩
    have hjl : j < (chunksOf env u (FS.write fs (lockOf u) 0)).length := by omega
    have htl : ((chunksOf env u (FS.write fs (lockOf u) 0)).take j).length = j := by
      simp [List.length_take, Nat.min_eq_left (Nat.le_of_lt hjl)]
    obtain ⟨fs1, tr1, hlen, hpres, heq⟩ := encodeChunks_pass_prefix env.chunkEnvs (outDirOf u)
      ((chunksOf env u (FS.write fs (lockOf u) 0)).take j)
      ((chunksOf env u (FS.write fs (lockOf u) 0)).drop j)
      (fsAfterResume env u (FS.write fs (lockOf u) 0)) 0
      hflag (fun m hm => by
        have hm2 : m < j := htl ▸ hm
        simpa using hpre m hm2)
    have hdrop : (chunksOf env u (FS.write fs (lockOf u) 0)).drop j =
        [(chunksOf env u (FS.write fs (lockOf u) 0)).getD j ""] := by
      have h1 : (chunksOf env u (FS.write fs (lockOf u) 0)).drop j =
          (chunksOf env u (FS.write fs (lockOf u) 0))[j] ::
            (chunksOf env u (FS.write fs (lockOf u) 0)).drop (j + 1) :=
        List.drop_eq_getElem_cons hjl
      have h2 : (chunksOf env u (FS.write fs (lockOf u) 0)).drop (j + 1) = [] :=
        List.drop_eq_nil_of_le (by omega)
      rw [List.getD_eq_getElem?_getD, List.getElem?_eq_getElem hjl]
      rw [h1, h2]
      rfl
    rw [htl] at heq hlen
    simp only [Nat.zero_add] at heq
    have hloop : loopOf env u (FS.write fs (lockOf u) 0) =
        encodeChunks env.chunkEnvs (outDirOf u) 0 (fsAfterResume env u (FS.write fs (lockOf u) 0))
          ((chunksOf env u (FS.write fs (lockOf u) 0)).take j ++
            (chunksOf env u (FS.write fs (lockOf u) 0)).drop j) := by
      rw [List.take_append_drop]
      rfl
    have hct : (processUnit env u fs).ctrace = tr1 ++
        (encodeChunks env.chunkEnvs (outDirOf u) j fs1
          ((chunksOf env u (FS.write fs (lockOf u) 0)).drop j)).trace := by
      rw [processUnit_run env u fs hlock hfile hcr,
        unitBody_ctrace env u _ (splitOf_not_raised env u _ hsp) hfl, hloop, heq]
    rw [hct, hdrop]
    by_cases hsk : skipChunk fs1 (encNameOf (outDirOf u)
        ((chunksOf env u (FS.write fs (lockOf u) 0)).getD j "")) = true
    · rw [encodeChunks_last_skip env.chunkEnvs (outDirOf u) j fs1 _ hsk]
      exact ⟨(ChunkAct.skipped, false), append_singleton_at tr1 _ j hlen, rfl⟩
    · have hsk2 : skipChunk fs1 (encNameOf (outDirOf u)
          ((chunksOf env u (FS.write fs (lockOf u) 0)).getD j "")) = false := by
        simpa using hsk
      cases ha : (env.chunkEnvs j).attempt1 with
      | ok sz =>
        rw [encodeChunks_last_ok env.chunkEnvs (outDirOf u) j fs1 _ sz hsk2 ha]
        exact ⟨(ChunkAct.encoded false, false), append_singleton_at tr1 _ j hlen, rfl⟩
      | err lo =>
        by_cases hh1 : (env.chunkEnvs j).flagH1 = true
        · cases ha2 : (env.chunkEnvs j).attempt2 with
          | ok sz =>
            rw [encodeChunks_last_retry_ok env.chunkEnvs (outDirOf u) j fs1 _ lo sz hsk2 ha hh1 ha2]
            exact ⟨(ChunkAct.encoded true, false), append_singleton_at tr1 _ j hlen, rfl⟩
          | err lo2 =>
            rw [encodeChunks_last_retry_err env.chunkEnvs (outDirOf u) j fs1 _ lo lo2 hsk2 ha hh1 ha2]
            exact ⟨(ChunkAct.retryFailed, false), append_singleton_at tr1 _ j hlen, rfl⟩
        · have hh1f : (env.chunkEnvs j).flagH1 = false := by simpa using hh1
          by_cases hh2 : (env.chunkEnvs j).flagH2 = true
          · rw [encodeChunks_last_removed env.chunkEnvs (outDirOf u) j fs1 _ lo hsk2 ha hh1f hh2]
            exact ⟨(ChunkAct.interruptedRemoved, false), append_singleton_at tr1 _ j hlen, rfl⟩
          · have hh2f : (env.chunkEnvs j).flagH2 = false := by simpa using hh2
            rw [encodeChunks_last_raised env.chunkEnvs (outDirOf u) j fs1 _ lo hsk2 ha hh1f hh2f]
            exact ⟨(ChunkAct.errorRaised, false), append_singleton_at tr1 _ j hlen, rfl⟩
  · rintro env u fs j lo sz ⟨hlock, hfile, hcr, hsp, hfl, hflag, hpre, hj, hd1⟩ hnskip hne ha1 hh1 ha2
    have hjl : j < (chunksOf env u (FS.write fs (lockOf u) 0)).length := by omega
    obtain ⟨fs1, tr1, hlen, hskip1, hloop⟩ := loopOf_decomp env u (FS.write fs (lockOf u) 0) j
      hflag hpre hjl hnskip hne
    have hdrop : (chunksOf env u (FS.write fs (lockOf u) 0)).drop j =
        [(chunksOf env u (FS.write fs (lockOf u) 0)).getD j ""] := by
      have h1 : (chunksOf env u (FS.write fs (lockOf u) 0)).drop j =
          (chunksOf env u (FS.write fs (lockOf u) 0))[j] ::
            (chunksOf env u (FS.write fs (lockOf u) 0)).drop (j + 1) :=
        List.drop_eq_getElem_cons hjl
      have h2 : (chunksOf env u (FS.write fs (lockOf u) 0)).drop (j + 1) = [] :=
        List.drop_eq_nil_of_le (by omega)
      rw [List.getD_eq_getElem?_getD, List.getElem?_eq_getElem hjl, h1, h2]
      rfl
    have hlr : loopOf env u (FS.write fs (lockOf u) 0) =
        { fs := FS.write (applyLeftover fs1
              (encNameOf (outDirOf u) ((chunksOf env u (FS.write fs (lockOf u) 0)).getD j "")) lo)
              (encNameOf (outDirOf u) ((chunksOf env u (FS.write fs (lockOf u) 0)).getD j "")) sz
          trace := tr1 ++ [(ChunkAct.encoded true, false)]
          completed := true
          raised := false
          encList := ((chunksOf env u (FS.write fs (lockOf u) 0)).take j).map
              (encNameOf (outDirOf u)) ++
            [encNameOf (outDirOf u) ((chunksOf env u (FS.write fs (lockOf u) 0)).getD j "")] } := by
      rw [hloop, hdrop,
        encodeChunks_last_retry_ok env.chunkEnvs (outDirOf u) j fs1 _ lo sz hskip1 ha1 hh1 ha2]
    have hproc : processUnit env u fs = unitBody env u (FS.write fs (lockOf u) 0) :=
      processUnit_run env u fs hlock hfile hcr
    have hbody := unitBody_eq_afterLoop env u (FS.write fs (lockOf u) 0)
      (splitOf_not_raised env u _ hsp) hfl (by rw [hlr])
    have hmgc := afterLoop_mergeCalled env u (some (FS.write fs (lockOf u) 0))
      (splitOf env u (FS.write fs (lockOf u) 0)).segTime (loopOf env u (FS.write fs (lockOf u) 0))
      (by rw [hlr]) (by rw [hlr]; simp)
    constructor
    · rw [hproc, hbody, hmgc.2, hlr]
      exact append_singleton_at tr1 _ j hlen
    · rw [hproc, hbody]
      exact hmgc.1
  · rintro env u fs j lo lo2 ⟨hlock, hfile, hcr, hsp, hfl, hflag, hpre, hj, hd1⟩ hnskip hne
      ha1 hh1 ha2 hamc hot
    have hjl : j < (chunksOf env u (FS.write fs (lockOf u) 0)).length := by omega
    obtain ⟨fs1, tr1, hlen, hskip1, hloop⟩ := loopOf_decomp env u (FS.write fs (lockOf u) 0) j
      hflag hpre hjl hnskip hne
    have hdrop : (chunksOf env u (FS.write fs (lockOf u) 0)).drop j =
        [(chunksOf env u (FS.write fs (lockOf u) 0)).getD j ""] := by
      have h1 : (chunksOf env u (FS.write fs (lockOf u) 0)).drop j =
          (chunksOf env u (FS.write fs (lockOf u) 0))[j] ::
            (chunksOf env u (FS.write fs (lockOf u) 0)).drop (j + 1) :=
        List.drop_eq_getElem_cons hjl
      have h2 : (chunksOf env u (FS.write fs (lockOf u) 0)).drop (j + 1) = [] :=
        List.drop_eq_nil_of_le (by omega)
      rw [List.getD_eq_getElem?_getD, List.getElem?_eq_getElem hjl, h1, h2]
      rfl
    have hlr : loopOf env u (FS.write fs (lockOf u) 0) =
        { fs := applyLeftover (applyLeftover fs1
              (encNameOf (outDirOf u) ((chunksOf env u (FS.write fs (lockOf u) 0)).getD j "")) lo)
              (encNameOf (outDirOf u) ((chunksOf env u (FS.write fs (lockOf u) 0)).getD j "")) lo2
          trace := tr1 ++ [(ChunkAct.retryFailed, false)]
          completed := false
          raised := false
          encList := ((chunksOf env u (FS.write fs (lockOf u) 0)).take j).map
              (encNameOf (outDirOf u)) ++
            [encNameOf (outDirOf u) ((chunksOf env u (FS.write fs (lockOf u) 0)).getD j "")] } := by
      rw [hloop, hdrop,
        encodeChunks_last_retry_err env.chunkEnvs (outDirOf u) j fs1 _ lo lo2 hskip1 ha1 hh1 ha2]
    have hmain : processUnit env u fs =
        ⟨unitRelease (lockOf u) (loopOf env u (FS.write fs (lockOf u) 0)).fs,
          UnitOutcome.brokeIncomplete, false, true, false,
          (loopOf env u (FS.write fs (lockOf u) 0)).trace,
          some (FS.write fs (lockOf u) 0), none,
          (splitOf env u (FS.write fs (lockOf u) 0)).segTime⟩ := by
      rw [processUnit_to_afterLoop env u fs hlock hfile hcr hsp hfl (by rw [hlr]),
        afterLoop_incomplete env u _ _ _ hamc (by rw [hlr])]
    rw [hlr] at hmain
    refine ⟨?_, ?_, ?_, ?_, ?_⟩
    · rw [hmain]
      exact append_singleton_at tr1 _ j hlen
    · rw [hmain]
    · rw [hmain]
    · rw [hmain]
    · intro rest
      simp only [runUnits, hot, Bool.false_eq_true, if_false]
      rw [hmain]
      simp


theorem processUnit_smooth (env : UnitEnv) (u : UnitSpec) (fs : FS) (osz : Nat)
    (h : smoothScenario env u fs osz) :
    processUnit env u fs =
      ⟨unitRelease (lockOf u)
          (cleanupVerify
            (FS.write (loopOf env u (FS.write fs (lockOf u) 0)).fs (finalOutOf u) osz)
            u.file_path (inDirOf u) (outDirOf u) env.probeOrig env.probeOut
            env.cleanupFailAt).fs,
        UnitOutcome.processed, true, env.flagAfterUnit, true,
        (loopOf env u (FS.write fs (lockOf u) 0)).trace,
        some (FS.write fs (lockOf u) 0),
        some (FS.write (loopOf env u (FS.write fs (lockOf u) 0)).fs (finalOutOf u) osz),
        (splitOf env u (FS.write fs (lockOf u) 0)).segTime⟩ := by
  obtain ⟨hlock, hfile, hcr, hsp, hfl, hflag, hok, hne, hmr⟩ := h
  obtain ⟨hcomp, hraised, hencl⟩ := encodeChunks_all_ok env.chunkEnvs (outDirOf u)
    (chunksOf env u (FS.write fs (lockOf u) 0))
    (fsAfterResume env u (FS.write fs (lockOf u) 0)) hflag (fun m _ => hok m)
  have hle : (loopOf env u (FS.write fs (lockOf u) 0)).encList ≠ [] := by
    intro hc
    rw [show (loopOf env u (FS.write fs (lockOf u) 0)).encList =
      (chunksOf env u (FS.write fs (lockOf u) 0)).map (encNameOf (outDirOf u)) from hencl] at hc
    exact hne (List.map_eq_nil_iff.mp hc)
  have hcomp2 : (loopOf env u (FS.write fs (lockOf u) 0)).completed = true := hcomp
  have hraised2 : (loopOf env u (FS.write fs (lockOf u) 0)).raised = false := hraised
  rw [processUnit_to_afterLoop env u fs hlock hfile hcr hsp hfl hraised2,
    afterLoop_merge_some env u _ _ _ osz hcomp2 hle hmr]

/-- C10: when the verify/cleanup stage raises (any of its five operations),
the exception is caught by the stage's own handler, not the per-unit failure
handler: the unit's outcome is `processed`, it is counted, the lock is
released, and the outer loop continues to the next unit. -/
theorem c10_cleanup_exception (env : UnitEnv) (u : UnitSpec) (fs : FS) (osz : Nat)
    (h : smoothScenario env u fs osz)
    (hraised : (cleanupVerify
        (FS.write (loopOf env u (FS.write fs (lockOf u) 0)).fs (finalOutOf u) osz)
        u.file_path (inDirOf u) (outDirOf u) env.probeOrig env.probeOut
        env.cleanupFailAt).raised = true)
    (hau : env.flagAfterUnit = false)
    (hot : env.flagOuterTop = false) :
    (processUnit env u fs).outcome = UnitOutcome.processed ∧
    (processUnit env u fs).counted = true ∧
    FS.existsFile (processUnit env u fs).fs (lockOf u) = false ∧
    (processUnit env u fs).breakOuter = false ∧
    (∀ rest, ((runUnits (fun _ => env) 0 fs (u :: rest)).2).length =
      1 + ((runUnits (fun _ => env) 1 (processUnit env u fs).fs rest).2).length) := by
  have hmain := processUnit_smooth env u fs osz h
  refine ⟨by rw [hmain], by rw [hmain], ?_, by rw [hmain, hau], ?_⟩
  · rw [hmain]
    exact unitRelease_lock_absent _ _
  · intro rest
    simp only [runUnits, hot, Bool.false_eq_true, if_false]
    rw [hmain, hau]
    simp [runUnits]
    omega

/-- C6: after a successful merge, if the re-probed durations differ by
strictly less than 10 s the source file and both temporary work directories
are deleted (the final filesystem is exactly the pre-cleanup one with the
source removed, both directories removed, and the lock released), and the
unit is counted as processed; if the difference is at least 10 s nothing is
deleted (the final filesystem is exactly the pre-cleanup one with only the
lock released) and the unit is still counted as processed. -/
theorem c6_verify_cleanup :
    (∀ env u fs osz, smoothScenario env u fs osz → env.cleanupFailAt = none →
      |env.probeOrig - env.probeOut| < 10 →
      (processUnit env u fs).counted = true ∧
      (∃ fsM, (processUnit env u fs).fsBeforeCleanup = some fsM ∧
        (processUnit env u fs).fs =
          unitRelease (lockOf u)
            (FS.removeDir (FS.removeDir (FS.remove fsM u.file_path) (inDirOf u))
              (outDirOf u)))) ∧
    (∀ env u fs osz, smoothScenario env u fs osz → env.cleanupFailAt = none →
      10 ≤ |env.probeOrig - env.probeOut| →
      (processUnit env u fs).counted = true ∧
      (∃ fsM, (processUnit env u fs).fsBeforeCleanup = some fsM ∧
        (processUnit env u fs).fs = unitRelease (lockOf u) fsM)) := by
  constructor
  · intro env u fs osz h hnone hdiff
    have hmain := processUnit_smooth env u fs osz h
    have hclean : cleanupVerify
        (FS.write (loopOf env u (FS.write fs (lockOf u) 0)).fs (finalOutOf u) osz)
        u.file_path (inDirOf u) (outDirOf u) env.probeOrig env.probeOut env.cleanupFailAt =
        ⟨FS.removeDir (FS.removeDir (FS.remove
            (FS.write (loopOf env u (FS.write fs (lockOf u) 0)).fs (finalOutOf u) osz)
            u.file_path) (inDirOf u)) (outDirOf u), false, true⟩ := by
      rw [hnone]
      simp [cleanupVerify, absQ_eq_abs, hdiff]
    rw [hmain]
    exact ⟨rfl, FS.write (loopOf env u (FS.write fs (lockOf u) 0)).fs (finalOutOf u) osz,
      rfl, by rw [hclean]⟩
  · intro env u fs osz h hnone hdiff
    have hmain := processUnit_smooth env u fs osz h
    have hclean : cleanupVerify
        (FS.write (loopOf env u (FS.write fs (lockOf u) 0)).fs (finalOutOf u) osz)
        u.file_path (inDirOf u) (outDirOf u) env.probeOrig env.probeOut env.cleanupFailAt =
        ⟨FS.write (loopOf env u (FS.write fs (lockOf u) 0)).fs (finalOutOf u) osz,
          false, false⟩ := by
      rw [hnone]
      simp [cleanupVerify, absQ_eq_abs, not_lt.mpr hdiff]
    rw [hmain]
    exact ⟨rfl, FS.write (loopOf env u (FS.write fs (lockOf u) 0)).fs (finalOutOf u) osz,
      rfl, by rw [hclean]⟩

/-- C5: a unit whose `<source>.lock` file already exists is skipped with the
filesystem unchanged; when the lock is initially absent, the final filesystem
of the unit's pass never contains the lock, on every exit path (success,
per-unit exception, cancellation) and for every environment; and when
processing proceeds, the filesystem seen by the split stage already contains
the freshly created lock. -/
theorem c5_lock_lifecycle :
    (∀ env u fs, FS.existsFile fs (lockOf u) = true →
      processUnit env u fs =
        ⟨fs, UnitOutcome.skippedLock, false, false, false, [], none, none, none⟩) ∧
    (∀ env u fs, FS.existsFile fs (lockOf u) = false →
      FS.existsFile (processUnit env u fs).fs (lockOf u) = false) ∧
    (∀ env u fs, FS.existsFile fs (lockOf u) = false →
      FS.existsFile fs u.file_path = true → env.lockCreateRaises = false →
      (processUnit env u fs).fsAtSplit = some (FS.write fs (lockOf u) 0)) := by
  refine ⟨?_, ?_, ?_⟩
  · intro env u fs h
    simp [processUnit, h]
  · intro env u fs h
    by_cases h2 : FS.existsFile fs u.file_path = true
    · by_cases h3 : env.lockCreateRaises = true
      · simp only [processUnit, h, Bool.false_eq_true, if_false, h2, Bool.not_true, if_true, h3]
      · have h3f : env.lockCreateRaises = false := by simpa using h3
        rw [processUnit_run env u fs h h2 h3f]
        exact unitBody_lock_absent env u _
    · have h2f : FS.existsFile fs u.file_path = false := by simpa using h2
      simp only [processUnit, h, Bool.false_eq_true, if_false, h2f, Bool.not_false, if_true]
  · intro env u fs h h2 h3
    rw [processUnit_run env u fs h h2 h3]
    exact unitBody_fsAtSplit env u _

theorem encodeChunks_cons_ok (envs : Nat → ChunkEnv) (outDir : String) (idx : Nat)
    (fs : FS) (c : String) (rest : List String) (sz : Nat)
    (hflag : (envs idx).flagLoopTop = false)
    (hskip : skipChunk fs (encNameOf outDir c) = false)
    (ha1 : (envs idx).attempt1 = EncRes.ok sz) :
    encodeChunks envs outDir idx fs (c :: rest) =
      ⟨(encodeChunks envs outDir (idx + 1) (FS.write fs (encNameOf outDir c) sz) rest).fs,
        (ChunkAct.encoded false, (envs idx).flagDuring1 && !rest.isEmpty) ::
          (encodeChunks envs outDir (idx + 1) (FS.write fs (encNameOf outDir c) sz) rest).trace,
        (encodeChunks envs outDir (idx + 1) (FS.write fs (encNameOf outDir c) sz) rest).completed,
        (encodeChunks envs outDir (idx + 1) (FS.write fs (encNameOf outDir c) sz) rest).raised,
        encNameOf outDir c ::
          (encodeChunks envs outDir (idx + 1) (FS.write fs (encNameOf outDir c) sz) rest).encList⟩ := by
  simp [encodeChunks, hflag, hskip, ha1]

/-- C1: on a run whose output work directory already contains encoded chunks
1..k in zero-padded sequence order, the encoder first unconditionally deletes
the last encoded chunk (the greatest in sorted order); the encode loop then
re-encodes chunk k, skips every earlier chunk whose encoded file is strictly
larger than the 1024-byte sanity threshold, and the skip guard holds exactly
when an encoded file exists with size strictly greater than 1024 bytes. -/
theorem c1_resume_reencode (fs : FS) (outDir : String) (cs : List String) (k : Nat)
    (envs : Nat → ChunkEnv)
    (hnd : (fs.map Prod.fst).Nodup)
    (hk : 0 < k) (hkn : k ≤ cs.length)
    (hglob : globEncoded fs outDir = (cs.take k).map (encNameOf outDir))
    (hflag : ∀ i, (envs i).flagLoopTop = false)
    (hok : ∃ s, (envs (k - 1)).attempt1 = EncRes.ok s)
    (hsz : ∀ c ∈ cs.take (k - 1), ∃ s, FS.size? fs (encNameOf outDir c) = some s ∧ 1024 < s) :
    resumeCheck fs outDir = FS.remove fs (encNameOf outDir (cs.getD (k - 1) "")) ∧
    (∀ i, i < k - 1 →
      (encodeChunks envs outDir 0 (resumeCheck fs outDir) cs).trace[i]? =
        some (ChunkAct.skipped, false)) ∧
    (∃ b, (encodeChunks envs outDir 0 (resumeCheck fs outDir) cs).trace[k - 1]? =
      some (ChunkAct.encoded false, b)) ∧
    (∀ (g : FS) (p : String), skipChunk g p = true ↔ ∃ s, FS.size? g p = some s ∧ 1024 < s) := by
  have hkl : k - 1 < cs.length := by omega
  have hgd : cs.getD (k - 1) "" = cs[k - 1] := by
    rw [List.getD_eq_getElem?_getD, List.getElem?_eq_getElem hkl]
    rfl
  have hlen : ((cs.take k).map (encNameOf outDir)).length = k := by
    simp [List.length_take, Nat.min_eq_left hkn]
  have hlast : (globEncoded fs outDir).getLast? = some (encNameOf outDir cs[k - 1]) := by
    rw [hglob, List.getLast?_eq_getElem?, hlen, List.getElem?_map,
      List.getElem?_take_of_lt (by omega), List.getElem?_eq_getElem hkl]
    rfl
  have hresume : resumeCheck fs outDir = FS.remove fs (encNameOf outDir cs[k - 1]) := by
    unfold resumeCheck
    rw [hlast]
  have hmnd : ((cs.take k).map (encNameOf outDir)).Nodup := by
    rw [← hglob]
    exact globFiles_nodup fs outDir _ _ hnd
  have htk1 : (cs.take (k - 1)).length = k - 1 := by
    simp [List.length_take, Nat.min_eq_left (by omega : k - 1 ≤ cs.length)]
  have hne : ∀ c ∈ cs.take (k - 1), encNameOf outDir c ≠ encNameOf outDir cs[k - 1] := by
    intro c hc
    obtain ⟨i, hi, hieq⟩ := List.mem_iff_getElem.mp hc
    have hik : i < k - 1 := by omega
    have hci : c = cs[i] := by
      rw [← hieq, List.getElem_take]
    have h1 : ((cs.take k).map (encNameOf outDir))[i] = encNameOf outDir cs[i] := by
      rw [List.getElem_map, List.getElem_take]
    have h2 : ((cs.take k).map (encNameOf outDir))[k - 1] = encNameOf outDir cs[k - 1] := by
      rw [List.getElem_map, List.getElem_take]
    intro hceq
    have : ((cs.take k).map (encNameOf outDir))[i] = ((cs.take k).map (encNameOf outDir))[k - 1] := by
      rw [h1, h2, ← hci]
      exact hceq
    have hij := (List.Nodup.getElem_inj_iff hmnd).mp this
    omega
  have hskipfs2 : ∀ c ∈ cs.take (k - 1),
      skipChunk (resumeCheck fs outDir) (encNameOf outDir c) = true := by
    intro c hc
    obtain ⟨s, hs, hsgt⟩ := hsz c hc
    rw [hresume]
    unfold skipChunk
    rw [fs_size?_remove_ne fs (hne c hc), hs]
    simpa using hsgt
  have hsplit : cs.take (k - 1) ++ cs.drop (k - 1) = cs := List.take_append_drop _ _
  have hdrop : cs.drop (k - 1) = cs[k - 1] :: cs.drop k := by
    have h1 := List.drop_eq_getElem_cons hkl
    rwa [show k - 1 + 1 = k from by omega] at h1
  have hmain := encodeChunks_skip_prefix envs outDir (cs.take (k - 1)) (cs.drop (k - 1))
    (resumeCheck fs outDir) 0 hflag hskipfs2
  rw [hsplit] at hmain
  have hskipk : skipChunk (resumeCheck fs outDir) (encNameOf outDir cs[k - 1]) = false := by
    rw [hresume]
    unfold skipChunk
    rw [fs_size?_remove_self]
  obtain ⟨s0, hs0⟩ := hok
  have hs0' : (envs (0 + (cs.take (k - 1)).length)).attempt1 = EncRes.ok s0 := by
    rw [htk1, Nat.zero_add]
    exact hs0
  have hstep := encodeChunks_cons_ok envs outDir (0 + (cs.take (k - 1)).length)
    (resumeCheck fs outDir) cs[k - 1] (cs.drop k) s0
    (hflag _) hskipk hs0'
  rw [hdrop, hstep] at hmain
  refine ⟨by rw [hresume, hgd], ?_, ?_, ?_⟩
  · intro i hi
    rw [hmain]
    simp only []
    rw [List.getElem?_append_left (by simp [htk1]; omega)]
    rw [List.getElem?_map]
    rw [List.getElem?_eq_getElem (by rw [htk1]; omega)]
    rfl
  · refine ⟨(envs (0 + (cs.take (k - 1)).length)).flagDuring1 && !(cs.drop k).isEmpty, ?_⟩
    rw [hmain]
    simp only []
    rw [List.getElem?_append_right (by simp [List.length_map, htk1])]
    simp only [List.length_map, htk1, List.length_take,
      Nat.min_eq_left (by omega : k - 1 ≤ cs.length), Nat.sub_self]
    exact List.getElem?_cons_zero
  · intro g p
    unfold skipChunk
    cases h : FS.size? g p with
    | none => simp
    | some s => simp

theorem cfs_look_remove_self (fs : CFS) (p : String) :
    CFS.look (CFS.remove fs p) p = none := by
  induction fs with
  | nil => rfl
  | cons e fs ih =>
    by_cases hep : e.1 = p
    · simp only [CFS.remove, List.filter_cons, hep, bne_self_eq_false, Bool.false_eq_true,
        if_false]
      exact ih
    · have hbne : (e.1 != p) = true := by simp [bne_iff_ne, hep]
      have h1 : (e.1 == p) = false := by simp [hep]
      simp only [CFS.remove, List.filter_cons, hbne, if_true, CFS.look, List.find?_cons, h1,
        cond_false]
      exact ih

/-- C4: for positive size and duration the splitter computes
`segment_time = (100*1024*1024 / file_size) * duration` floored at 10 s;
for `duration ≤ 0` it falls back to the fixed 300 s default; and for a
3600 s, 1 200 000 000-byte source the value is exactly 314.5728 s, on which
the 10 s floor is a no-op. -/
theorem c4_segment_time :
    (∀ file_size duration : ℚ, 0 < file_size → 0 < duration →
      segment_time file_size duration = max 10 (104857600 / file_size * duration)) ∧
    (∀ file_size duration : ℚ, duration ≤ 0 → segment_time file_size duration = 300) ∧
    segment_time 1200000000 3600 = 3145728 / 10000 ∧
    max (10 : ℚ) (104857600 / 1200000000 * 3600) = 104857600 / 1200000000 * 3600 := by
  have hval : (104857600 : ℚ) / 1200000000 * 3600 = 3145728 / 10000 := by norm_num
  refine ⟨?_, ?_, ?_, ?_⟩
  · intro s d hs hd
    rw [segment_time, if_pos ⟨hs, hd⟩]
    norm_num [target_size_bytes]
  · intro s d hd
    rw [segment_time, if_neg]
    rintro ⟨h1, h2⟩
    exact absurd hd (not_le.mpr h2)
  · rw [segment_time, if_pos (by norm_num)]
    rw [show target_size_bytes = 104857600 from by norm_num [target_size_bytes]]
    rw [hval]
    exact max_eq_right (by norm_num)
  · rw [hval]
    exact max_eq_right (by norm_num)

theorem c4_witness :
    segment_time 2000000 100 = max 10 (104857600 / 2000000 * 100) ∧
    segment_time 5 (-3) = 300 :=
  ⟨c4_segment_time.1 2000000 100 (by norm_num) (by norm_num),
   c4_segment_time.2.1 5 (-3) (by norm_num)⟩

/-- C7: the merger raises on an empty chunk list without touching the
filesystem; for a non-empty list it writes the manifest `concat_list.txt`
into the chunks' own directory, whose written lines are exactly one line per
chunk, in the given order, each holding the chunk's bare filename with single
quotes escaped; and the manifest is absent from the resulting filesystem
whether the external concat succeeded or failed. -/
theorem c7_merge_manifest :
    (∀ (fs : CFS) (output_file : String) (concatOK : Bool) (outLines : List String),
      merge_videos fs [] output_file concatOK outLines = ⟨fs, false, true, none, none⟩) ∧
    (∀ (fs : CFS) (chunk_list : List String) (output_file : String) (concatOK : Bool)
        (outLines : List String), chunk_list ≠ [] →
      (merge_videos fs chunk_list output_file concatOK outLines).manifestPath =
        some (dirName (chunk_list.headD "") ++ "/concat_list.txt") ∧
      (merge_videos fs chunk_list output_file concatOK outLines).manifestWritten =
        some (chunk_list.map manifestLine) ∧
      CFS.look (merge_videos fs chunk_list output_file concatOK outLines).fs
        (dirName (chunk_list.headD "") ++ "/concat_list.txt") = none) ∧
    (∀ (l : List String) (i : Nat), (l.map manifestLine)[i]? = (l[i]?).map manifestLine) := by
  refine ⟨?_, ?_, ?_⟩
  · intro fs o c ol
    rfl
  · intro fs cl o c ol hne
    cases cl with
    | nil => exact absurd rfl hne
    | cons c0 rest =>
      refine ⟨?_, ?_, ?_⟩
      · cases c <;> simp [merge_videos]
      · cases c <;> simp [merge_videos]
      · cases c <;> simp only [merge_videos, List.headD_cons, Bool.false_eq_true, if_false,
          if_true] <;> exact cfs_look_remove_self _ _
  · intro l i
    exact List.getElem?_map manifestLine l i

theorem c7_witness :
    merge_videos ([] : CFS) ([] : List String) "o/out.mp4" true [] =
      ⟨[], false, true, none, none⟩ ∧
    (merge_videos ([] : CFS) ["d/a.mp4", "d/b.mp4"] "o/out.mp4" false []).manifestPath =
      some "d/concat_list.txt" ∧
    (merge_videos ([] : CFS) ["d/a.mp4", "d/b.mp4"] "o/out.mp4" false []).manifestWritten =
      some [manifestLine "d/a.mp4", manifestLine "d/b.mp4"] ∧
    CFS.look (merge_videos ([] : CFS) ["d/a.mp4", "d/b.mp4"] "o/out.mp4" false []).fs
      "d/concat_list.txt" = none := by
  have h2 := c7_merge_manifest.2.1 ([] : CFS) ["d/a.mp4", "d/b.mp4"] "o/out.mp4" false []
    (by simp)
  have hd : dirName (["d/a.mp4", "d/b.mp4"].headD "") ++ "/concat_list.txt" =
      "d/concat_list.txt" := by decide
  refine ⟨c7_merge_manifest.1 ([] : CFS) "o/out.mp4" true [], ?_, ?_, ?_⟩
  · rw [h2.1, hd]
  · rw [h2.2.1]
    rfl
  · rw [← hd]
    exact h2.2.2

/-- C8: if any `chunk_*.mp4` files already exist in the destination work
directory, `split_video` returns with the filesystem unchanged and without
invoking the external segmenter, regardless of durations, sizes, or what the
segmenter would have produced. -/
theorem c8_split_idempotent (fs : FS) (input_path outDir : String)
    (duration file_size : ℚ) (segOut : Option (List (String × Nat)))
    (h : globChunks fs outDir ≠ []) :
    split_video fs input_path outDir duration file_size segOut = ⟨fs, false, none, false⟩ := by
  have hne : (globChunks fs outDir).isEmpty = false := by
    cases hg : globChunks fs outDir with
    | nil => exact absurd hg h
    | cons a l => rfl
  simp [split_video, hne]

theorem c8_witness :
    split_video [("d/chunk_001.mp4", 7)] "x/in.mkv" "d" 0 0 none =
      ⟨[("d/chunk_001.mp4", 7)], false, none, false⟩ :=
  c8_split_idempotent _ _ _ _ _ _ (by decide)

/-- C9 counterexample: at chunk duration 0 and elapsed time 5 the
percentage computation of the progress callback divides by zero (the claim
asserts both computations are total for every chunk, including one whose
probed duration is 0). -/
theorem c9_percent_div_zero : progress_percent 0 5 = none := by
  simp [progress_percent, pydiv]

/-- C9 (amended): the progress callback's ETA is total — it equals 0 when
the reported speed is 0 and `(chunk_duration − elapsed) / speed` otherwise —
and the percentage equals `100 * elapsed / chunk_duration` and is total
exactly when `chunk_duration ≠ 0`; for a chunk whose probed duration is 0 the
percentage computation divides by zero. -/
theorem c9_progress_totality :
    (∀ chunk_duration elapsed speed : ℚ, chunk_eta chunk_duration elapsed speed =
      some (if speed = 0 then 0 else (chunk_duration - elapsed) / speed)) ∧
    (∀ chunk_duration elapsed : ℚ, chunk_duration ≠ 0 →
      progress_percent chunk_duration elapsed = some (100 * elapsed / chunk_duration)) ∧
    (∀ elapsed : ℚ, progress_percent 0 elapsed = none) := by
  refine ⟨?_, ?_, ?_⟩
  · intro d t s
    by_cases hs : s = 0 <;> simp [chunk_eta, pydiv, hs]
  · intro d t hd
    simp [progress_percent, pydiv, hd]
  · intro t
    simp [progress_percent, pydiv]

theorem c9_witness :
    chunk_eta 10 4 2 = some 3 ∧ progress_percent 10 4 = some 40 := by
  constructor
  · rw [c9_progress_totality.1 10 4 2]
    norm_num
  · rw [c9_progress_totality.2.1 10 4 (by norm_num)]
    norm_num

theorem c1_witness :
    resumeCheck wFsC1 "o" = FS.remove wFsC1 (encNameOf "o" "i/chunk_002.mp4") ∧
    (encodeChunks (fun _ => wChunkOk) "o" 0 (resumeCheck wFsC1 "o") wCsC1).trace[0]? =
      some (ChunkAct.skipped, false) ∧
    Option.map Prod.fst
      ((encodeChunks (fun _ => wChunkOk) "o" 0 (resumeCheck wFsC1 "o") wCsC1).trace[1]?) =
      some (ChunkAct.encoded false) := by
  have h := c1_resume_reencode wFsC1 "o" wCsC1 2 (fun _ => wChunkOk) (by decide) (by decide) (by decide)
    (by decide) (fun i => rfl) ⟨5000, rfl⟩
    (fun c hc => by
      simp [wCsC1] at hc
      subst hc
      exact ⟨5000, rfl, by norm_num⟩)
  refine ⟨?_, h.2.1 0 (by decide), ?_⟩
  · have h1 := h.1
    rw [show wCsC1.getD (2 - 1) "" = "i/chunk_002.mp4" from rfl] at h1
    exact h1
  · obtain ⟨b, hb⟩ := h.2.2.1
    rw [show (2 : Nat) - 1 = 1 from rfl] at hb
    rw [hb]
    rfl

theorem c2_witness :
    (processUnit wEnvC2 wU wFs2).ctrace[0]? = some (ChunkAct.interruptedRemoved, true) ∧
    (processUnit wEnvC2 wU wFs2).mergeCalled = false ∧
    (processUnit wEnvC2 wU wFs2).counted = false ∧
    (processUnit wEnvC2 wU wFs2).breakOuter = true := by
  have h := c2_cancel_nonlast wEnvC2 wU wFs2 0 (some 10) (by decide) (by decide) rfl (by decide) rfl
    (fun i => by
      by_cases hi : i = 0 <;> simp [wEnvC2, wCE2, hi, wChunkOk])
    (fun m hm => absurd hm (Nat.not_lt_zero m))
    (by decide)
    (by decide)
    (fun c hc => by simp at hc)
    rfl rfl rfl rfl rfl
  exact ⟨h.1, h.2.2.1, h.2.2.2.1, h.2.2.2.2.1⟩

theorem c3_witness :
    Option.map Prod.snd ((processUnit wEnvC3a wU wFs1).ctrace[0]?) = some false ∧
    (processUnit wEnvC3b wU wFs1).ctrace[0]? = some (ChunkAct.encoded true, false) ∧
    (processUnit wEnvC3b wU wFs1).mergeCalled = true ∧
    (processUnit wEnvC3c wU wFs1).ctrace[0]? = some (ChunkAct.retryFailed, false) ∧
    (processUnit wEnvC3c wU wFs1).mergeCalled = false ∧
    (processUnit wEnvC3c wU wFs1).breakOuter = true := by
  have hsca : lastChunkFlagged wEnvC3a wU wFs1 0 :=
    ⟨by decide, by decide, rfl, by decide, rfl, fun i => rfl,
     fun m hm => absurd hm (Nat.not_lt_zero m), by decide, rfl⟩
  have hscb : lastChunkFlagged wEnvC3b wU wFs1 0 :=
    ⟨by decide, by decide, rfl, by decide, rfl, fun i => rfl,
     fun m hm => absurd hm (Nat.not_lt_zero m), by decide, rfl⟩
  have hscc : lastChunkFlagged wEnvC3c wU wFs1 0 :=
    ⟨by decide, by decide, rfl, by decide, rfl, fun i => rfl,
     fun m hm => absurd hm (Nat.not_lt_zero m), by decide, rfl⟩
  obtain ⟨e, he, hsnd⟩ := c3_cancel_last.1 wEnvC3a wU wFs1 0 hsca
  have hb := c3_cancel_last.2.1 wEnvC3b wU wFs1 0 none 6000 hscb (by decide)
    (fun c hc => by simp at hc) rfl rfl rfl
  have hc := c3_cancel_last.2.2 wEnvC3c wU wFs1 0 none none hscc (by decide)
    (fun c hc => by simp at hc) rfl rfl rfl rfl rfl
  refine ⟨?_, hb.1, hb.2, hc.1, hc.2.1, hc.2.2.2.1⟩
  rw [he]
  simp [hsnd]

theorem c5_witness :
    processUnit wEnvA wU [("s/v.mp4.lock", 0), ("s/v.mp4", 999)] =
      ⟨[("s/v.mp4.lock", 0), ("s/v.mp4", 999)], UnitOutcome.skippedLock, false, false, false,
        [], none, none, none⟩ ∧
    FS.existsFile (processUnit wEnvA wU wFs1).fs (lockOf wU) = false ∧
    (processUnit wEnvA wU wFs1).fsAtSplit = some (FS.write wFs1 (lockOf wU) 0) := by
  refine ⟨c5_lock_lifecycle.1 wEnvA wU _ (by decide), c5_lock_lifecycle.2.1 wEnvA wU wFs1 (by decide),
    c5_lock_lifecycle.2.2 wEnvA wU wFs1 (by decide) (by decide) rfl⟩

theorem c6_witness :
    (processUnit wEnvA wU wFs1).counted = true ∧
    (processUnit wEnvB wU wFs1).counted = true := by
  have hsca : smoothScenario wEnvA wU wFs1 4000 :=
    ⟨by decide, by decide, rfl, by decide, rfl, fun i => rfl, fun m => ⟨5000, rfl⟩,
     by decide, rfl⟩
  have hscb : smoothScenario wEnvB wU wFs1 4000 :=
    ⟨by decide, by decide, rfl, by decide, rfl, fun i => rfl, fun m => ⟨5000, rfl⟩,
     by decide, rfl⟩
  exact ⟨(c6_verify_cleanup.1 wEnvA wU wFs1 4000 hsca rfl (by norm_num [wEnvA])).1,
    (c6_verify_cleanup.2 wEnvB wU wFs1 4000 hscb rfl (by norm_num [wEnvB])).1⟩

theorem c10_witness :
    (processUnit wEnvFail wU wFs1).outcome = UnitOutcome.processed ∧
    (processUnit wEnvFail wU wFs1).counted = true ∧
    FS.existsFile (processUnit wEnvFail wU wFs1).fs (lockOf wU) = false ∧
    (processUnit wEnvFail wU wFs1).breakOuter = false := by
  have hsc : smoothScenario wEnvFail wU wFs1 4000 :=
    ⟨by decide, by decide, rfl, by decide, rfl, fun i => rfl, fun m => ⟨5000, rfl⟩,
     by decide, rfl⟩
  have h := c10_cleanup_exception wEnvFail wU wFs1 4000 hsc (by rfl) rfl rfl
  exact ⟨h.1, h.2.1, h.2.2.1, h.2.2.2.1⟩
